import Mathlib

/-!
Window controller of text-chunking-gpt.

A shallow embedding of `convertChunksToMarkdown` (src/main.go, lines 97-267)
and theorems about its sliding-window loop.

Modelling conventions.

* Go `int` values (indices, counters) are mathematical integers. The only
  arithmetic the loop performs on them is `+ 1` on counters that start at 0 and
  grow by one per oracle call, and `len(chunks) - 1`; none of them can leave the
  64-bit range in a run of fewer than 2^63 oracle calls.
* The oracle (`client.CreateChatCompletion`) is a script: the list of results it
  hands back, one per call, in call order. A run that needs one more result than
  the script holds ends in `Outcome.awaitingReply`.
* `json.Unmarshal` is a parameter `unmarshal` of every definition that needs it.
  `jsonUnmarshal` models it over the JSON reading of the payload text, for the
  claims that turn on how a payload is decoded.
* `json.Marshal` cannot fail on the `input` struct (integers, a boolean and a
  list of strings), so the branch at lines 126-128 is not reachable and is left
  out.
* A run-time panic (index out of range in `chunks[i]`, nil `FunctionCall`) is an
  explicit outcome.
-/

namespace TextChunking

/-! ## Data model (main.go lines 80-95) -/

/-- Request payload, `type input struct` (lines 80-87). -/
structure input where
  Iteration : Int
  RetryLastIteration : Bool
  MaxIndex : Int
  StartIndex : Int
  EndIndex : Int
  Chunks : List String
  deriving DecidableEq, Repr

/-- Reply payload, `type output struct` (lines 89-95). -/
structure output where
  Finished : Bool
  Store : Bool
  Markdown : String
  NextStartIndex : Int
  NextEndIndex : Int
  deriving DecidableEq, Repr

/-! ## The parts of the go-openai response the loop reads (lines 218-234) -/

/-- The two fields read from `res.Choices[0].Message.FunctionCall`. -/
structure FunctionCall where
  Name : String
  Arguments : String
  deriving DecidableEq, Repr

/-- In go-openai `Message.FunctionCall` is a pointer; `none` is the nil pointer. -/
structure ChatCompletionMessage where
  FunctionCall : Option FunctionCall
  deriving DecidableEq, Repr

structure ChatCompletionChoice where
  Message : ChatCompletionMessage
  deriving DecidableEq, Repr

structure ChatCompletionResponse where
  Choices : List ChatCompletionChoice
  deriving DecidableEq, Repr

/-- What one call of `client.CreateChatCompletion` hands back: `(res, err)`. -/
abbrev CallResult := Except String ChatCompletionResponse

/-- The `fmt.Errorf` values the function can return, one constructor per call
site, carrying the values formatted into the message. -/
inductive ConvertError where
  /-- Line 220: "chat completion failed: %v". -/
  | chatCompletionFailed (err : String)
  /-- Line 224: "res.Choices should be 1 but received: %d". -/
  | choicesLength (n : Nat)
  /-- Line 228: "functionCall name not output but: %s". -/
  | functionCallName (name : String)
  /-- Line 237: "unable to unmarshal output data, retry count %d: %v". -/
  | unmarshalOutput (retryCount : Int) (err : String)
  /-- Line 250: "next end index %d received from output is larger than max index %d". -/
  | nextEndIndex (nextEndIndex maxIndex : Int)
  /-- Line 254: "next start index %d is larger than next end index %d". -/
  | nextStartIndex (nextStartIndex nextEndIndex : Int)
  deriving DecidableEq, Repr

/-- How a run ends. `returned` is the Go result pair `([]string, error)`, each
component `none` for nil. -/
inductive Outcome where
  | returned (markdownChunks : Option (List String)) (err : Option ConvertError)
  | panicked
  | awaitingReply
  deriving DecidableEq, Repr

/-- The mutable locals of `convertChunksToMarkdown` (lines 102-107). -/
structure LoopState where
  startIndex : Int
  endIndex : Int
  iterationCounter : Int
  retryLastIteration : Bool
  retryLastIterationCounter : Int
  markdownChunks : List String
  deriving DecidableEq, Repr

/-- Lines 102-107. -/
def initialState : LoopState where
  startIndex := 0
  endIndex := 2
  iterationCounter := 0
  retryLastIteration := false
  retryLastIterationCounter := 0
  markdownChunks := []

/-- `chunks[i]` for a Go `int` index: `none` is the index-out-of-range panic. -/
def chunkAt (chunks : List String) (i : Int) : Option String :=
  if i < 0 then none else chunks[i.toNat]?

/-- The inner loop of lines 110-113, `n` iterations starting at index `i` with
`inputChunks = acc`; `none` when some `chunks[i]` panics. -/
def appendChunks (chunks : List String) : Nat → Int → List String → Option (List String)
  | 0, _, acc => some acc
  | n + 1, i, acc =>
    match chunkAt chunks i with
    | none => none
    | some c => appendChunks chunks n (i + 1) (acc ++ [c])

/-- Lines 110-113: `for i := startIndex; i <= endIndex; i++` runs
`endIndex - startIndex + 1` times when that is positive and not at all
otherwise. -/
def inputChunks (chunks : List String) (startIndex endIndex : Int) : Option (List String) :=
  appendChunks chunks (endIndex - startIndex + 1).toNat startIndex []

/-- Lines 110-122: the request built at the head of the loop body; `none` when
collecting the chunks panics. -/
def buildInput (chunks : List String) (s : LoopState) : Option input :=
  match inputChunks chunks s.startIndex s.endIndex with
  | none => none
  | some cs =>
    some { Iteration := s.iterationCounter
           RetryLastIteration := s.retryLastIteration
           MaxIndex := (chunks.length : Int) - 1
           StartIndex := s.startIndex
           EndIndex := s.endIndex
           Chunks := cs }

/-- What the rest of the loop body does once the oracle call has come back. -/
inductive Step where
  /-- Fall through to the next iteration (`continue`, or the end of the body). -/
  | next (s : LoopState)
  /-- Leave the function: a `return`, the `break` followed by line 266, or a panic. -/
  | stop (o : Outcome)
  deriving DecidableEq, Repr

/-- Lines 218-263: the loop body from the oracle's result on. `s` is the state
after line 123 (`retryLastIteration = false`). -/
def afterCall (unmarshal : String → Except String output) (inputData : input)
    (s : LoopState) (res : CallResult) : Step :=
  match res with
  | .error err => .stop (.returned none (some (.chatCompletionFailed err)))
  | .ok res =>
    match res.Choices with
    | [choice] =>
      match choice.Message.FunctionCall with
      | none => .stop .panicked
      | some functionCall =>
        if functionCall.Name ≠ "output" then
          .stop (.returned none (some (.functionCallName functionCall.Name)))
        else
          match unmarshal functionCall.Arguments with
          | .error err =>
            if s.retryLastIterationCounter ≥ 1 then
              .stop (.returned none
                (some (.unmarshalOutput s.retryLastIterationCounter err)))
            else
              .next { s with
                retryLastIteration := true
                retryLastIterationCounter := s.retryLastIterationCounter + 1 }
          | .ok outputData =>
            if outputData.Finished then
              .stop (.returned (some s.markdownChunks) none)
            else if outputData.NextEndIndex > inputData.MaxIndex then
              .stop (.returned none
                (some (.nextEndIndex outputData.NextEndIndex inputData.MaxIndex)))
            else if outputData.NextStartIndex > outputData.NextEndIndex then
              .stop (.returned none
                (some (.nextStartIndex outputData.NextStartIndex outputData.NextEndIndex)))
            else
              .next { startIndex := outputData.NextStartIndex
                      endIndex := outputData.NextEndIndex
                      iterationCounter := s.iterationCounter + 1
                      retryLastIteration := s.retryLastIteration
                      retryLastIterationCounter := 0
                      markdownChunks :=
                        if outputData.Store then s.markdownChunks ++ [outputData.Markdown]
                        else s.markdownChunks }
    | choices => .stop (.returned none (some (.choicesLength choices.length)))

/-- A run: the requests sent to the oracle, in order, and how the run ended. -/
structure Run where
  requests : List input
  outcome : Outcome
  deriving DecidableEq, Repr

/-- The `for` loop of lines 109-264 entered in state `s`, with the oracle's
results still to come in `script`. -/
def loop (unmarshal : String → Except String output) (chunks : List String) :
    List CallResult → LoopState → Run
  | [], s =>
    match buildInput chunks s with
    | none => ⟨[], .panicked⟩
    | some inputData => ⟨[inputData], .awaitingReply⟩
  | res :: script, s =>
    match buildInput chunks s with
    | none => ⟨[], .panicked⟩
    | some inputData =>
      match afterCall unmarshal inputData { s with retryLastIteration := false } res with
      | .stop o => ⟨[inputData], o⟩
      | .next s' =>
        let r := loop unmarshal chunks script s'
        ⟨inputData :: r.requests, r.outcome⟩

/-- `convertChunksToMarkdown(ctx, cfg, chunks)` against the oracle `script`. -/
def convertChunksToMarkdown (unmarshal : String → Except String output)
    (chunks : List String) (script : List CallResult) : Run :=
  loop unmarshal chunks script initialState

/-! ## Vocabulary for the oracle's results -/

/-- The arguments text of a result that gets past lines 219-229: no transport
error, exactly one choice, a function call, and that call named "output". -/
def argumentsOf : CallResult → Option String
  | .ok ⟨[⟨⟨some functionCall⟩⟩]⟩ =>
    if functionCall.Name = "output" then some functionCall.Arguments else none
  | _ => none

/-- The reply a result parses to at line 234, when it gets that far and
`json.Unmarshal` succeeds. -/
def parsed (unmarshal : String → Except String output) (res : CallResult) : Option output :=
  match argumentsOf res with
  | none => none
  | some arguments =>
    match unmarshal arguments with
    | .ok outputData => some outputData
    | .error _ => none

/-- The result gets to line 234 and `json.Unmarshal` returns an error. -/
def unparsable (unmarshal : String → Except String output) (res : CallResult) : Bool :=
  match argumentsOf res with
  | none => false
  | some arguments =>
    match unmarshal arguments with
    | .ok _ => false
    | .error _ => true

/-- The state after lines 239-240 (first parse failure). -/
def retried (s : LoopState) : LoopState :=
  { s with
    retryLastIteration := true
    retryLastIterationCounter := s.retryLastIterationCounter + 1 }

/-- The state after lines 243 and 257-263 (an accepted reply). -/
def advanced (s : LoopState) (outputData : output) : LoopState where
  startIndex := outputData.NextStartIndex
  endIndex := outputData.NextEndIndex
  iterationCounter := s.iterationCounter + 1
  retryLastIteration := s.retryLastIteration
  retryLastIterationCounter := 0
  markdownChunks :=
    if outputData.Store then s.markdownChunks ++ [outputData.Markdown] else s.markdownChunks

/-- The state after line 123. -/
def sent (s : LoopState) : LoopState :=
  { s with retryLastIteration := false }

/-- What the specification lets a result add to the output: the markdown of a
reply that parsed, is not finishing, has `next_end_index ≤ maxIndex` and
`next_start_index ≤ next_end_index`, and has `store = true`; nothing otherwise. -/
def contribution (unmarshal : String → Except String output) (maxIndex : Int)
    (res : CallResult) : List String :=
  match parsed unmarshal res with
  | none => []
  | some o =>
    if o.Finished = false ∧ o.NextEndIndex ≤ maxIndex ∧ o.NextStartIndex ≤ o.NextEndIndex ∧
        o.Store = true then
      [o.Markdown]
    else []

/-- The retry bookkeeping at the head of the loop body: either the flag is set
and the counter is 1, or the flag is clear and the counter is 0. -/
def RetryConsistent (s : LoopState) : Prop :=
  (s.retryLastIteration = true ∧ s.retryLastIterationCounter = 1) ∨
  (s.retryLastIteration = false ∧ s.retryLastIterationCounter = 0)

/-- The request is a retried one of iteration `k`. -/
def isRetryOf (k : Int) (req : input) : Bool :=
  req.RetryLastIteration && decide (req.Iteration = k)

/-- The specification's accepted reply: it parsed, is not finishing, and has
`next_end_index ≤ maxIndex` and `next_start_index ≤ next_end_index`. -/
def accepted (unmarshal : String → Except String output) (maxIndex : Int)
    (res : CallResult) : Bool :=
  match parsed unmarshal res with
  | none => false
  | some o =>
    !o.Finished && decide (o.NextEndIndex ≤ maxIndex) &&
      decide (o.NextStartIndex ≤ o.NextEndIndex)

/-- The states in which the loop body is entered during a run, in order: the
same walk as `loop`, recording the state at line 110 instead of the request. -/
def loopStates (unmarshal : String → Except String output) (chunks : List String) :
    List CallResult → LoopState → List LoopState
  | [], s => [s]
  | res :: script, s =>
    match buildInput chunks s with
    | none => [s]
    | some inputData =>
      match afterCall unmarshal inputData { s with retryLastIteration := false } res with
      | .stop _ => [s]
      | .next s' => s :: loopStates unmarshal chunks script s'

/-! ## Concrete oracle results -/

/-- A well-formed result: one choice calling `output` with the given arguments. -/
def call (arguments : String) : CallResult :=
  .ok ⟨[⟨⟨some ⟨"output", arguments⟩⟩⟩]⟩

/-- Text that is not JSON. -/
def replyNotJSON : String := "not json"

/-- Payload: not finished, nothing to store, next window 0..3. -/
def replyGrow : String :=
  "\x7b\"finished\":false,\"store\":false,\"markdown\":\"\",\"next_start_index\":0,\"next_end_index\":3\x7d"

/-- Payload: not finished, store "## A", next window 4..4. -/
def replyStoreA : String :=
  "\x7b\"finished\":false,\"store\":true,\"markdown\":\"## A\",\"next_start_index\":4,\"next_end_index\":4\x7d"

/-- Payload: finished, indices -1 as the function description asks. -/
def replyFinished : String :=
  "\x7b\"finished\":true,\"store\":false,\"markdown\":\"\",\"next_start_index\":-1,\"next_end_index\":-1\x7d"

/-- Payload: finished, carrying a passage and a window end beyond any small document. -/
def replyFinishedBeyond : String :=
  "\x7b\"finished\":true,\"store\":true,\"markdown\":\"## Z\",\"next_start_index\":0,\"next_end_index\":7\x7d"

/-- The decoder used at concrete inputs. On each payload text listed it returns
what `json.Unmarshal` into an `output` value returns; any other text is treated
as malformed (of those, only `replyNotJSON` is ever used). -/
def sampleUnmarshal (arguments : String) : Except String output :=
  if arguments = replyGrow then .ok ⟨false, false, "", 0, 3⟩
  else if arguments = replyStoreA then .ok ⟨false, true, "## A", 4, 4⟩
  else if arguments = replyFinished then .ok ⟨true, false, "", -1, -1⟩
  else if arguments = replyFinishedBeyond then .ok ⟨true, true, "## Z", 0, 7⟩
  else .error "invalid character"

/-! ## Decoding the reply payload

`json.Unmarshal(data, &outputData)` at line 234, as documented for Go's
`encoding/json`: the text must be valid JSON; a JSON object is decoded member
by member into the zero-valued struct, a key selecting the struct field whose
`json` tag equals it exactly or under case folding, unknown keys being skipped;
`null` leaves the target unchanged; a value of the wrong JSON type is an error;
a field no member mentions keeps its zero value. -/

/-- A member value, as far as decoding into `output` tells values apart. For a
number, `asInt` is `some n` when the literal is an integer literal within the
64-bit range and `none` otherwise (fraction, exponent, out of range). -/
inductive JsonValue where
  | null
  | bool (b : Bool)
  | number (asInt : Option Int)
  | string (s : String)
  | composite
  deriving DecidableEq, Repr

/-- The top-level JSON value of a payload text. -/
inductive JsonText where
  | object (members : List (String × JsonValue))
  | null
  | nonObject
  deriving DecidableEq, Repr

/-- Case folding of one key character against the ASCII field names: upper-case
ASCII letters, and the two non-ASCII characters that fold to ASCII letters
(U+017F to `s`, U+212A to `k`). -/
def foldRune (c : Char) : Char :=
  if 65 ≤ c.toNat ∧ c.toNat ≤ 90 then Char.ofNat (c.toNat + 32)
  else if c.toNat = 0x17F then 's'
  else if c.toNat = 0x212A then 'k'
  else c

/-- The key selects the field with the given (lower-case ASCII) `json` tag. -/
def keyMatches (key tag : String) : Bool :=
  decide (key.toList.map foldRune = tag.toList)

/-- Decoding a member value into a `bool` field holding `old`. -/
def decodeBool (old : Bool) : JsonValue → Except String Bool
  | .null => .ok old
  | .bool b => .ok b
  | _ => .error "json: cannot unmarshal into Go struct field of type bool"

/-- Decoding a member value into a `string` field holding `old`. -/
def decodeString (old : String) : JsonValue → Except String String
  | .null => .ok old
  | .string s => .ok s
  | _ => .error "json: cannot unmarshal into Go struct field of type string"

/-- Decoding a member value into an `int` field holding `old`. -/
def decodeInt (old : Int) : JsonValue → Except String Int
  | .null => .ok old
  | .number (some n) => .ok n
  | _ => .error "json: cannot unmarshal into Go struct field of type int"

/-- Decoding one object member into the struct. -/
def decodeMember (o : output) (key : String) (v : JsonValue) : Except String output :=
  if keyMatches key "finished" then
    match decodeBool o.Finished v with
    | .ok b => .ok { o with Finished := b }
    | .error e => .error e
  else if keyMatches key "store" then
    match decodeBool o.Store v with
    | .ok b => .ok { o with Store := b }
    | .error e => .error e
  else if keyMatches key "markdown" then
    match decodeString o.Markdown v with
    | .ok s => .ok { o with Markdown := s }
    | .error e => .error e
  else if keyMatches key "next_start_index" then
    match decodeInt o.NextStartIndex v with
    | .ok n => .ok { o with NextStartIndex := n }
    | .error e => .error e
  else if keyMatches key "next_end_index" then
    match decodeInt o.NextEndIndex v with
    | .ok n => .ok { o with NextEndIndex := n }
    | .error e => .error e
  else .ok o

/-- Decoding the members of an object in order. -/
def decodeMembers : List (String × JsonValue) → output → Except String output
  | [], o => .ok o
  | (key, v) :: members, o =>
    match decodeMember o key v with
    | .error e => .error e
    | .ok o' => decodeMembers members o'

/-- The zero value `output{}` of line 233. -/
def zeroOutput : output := ⟨false, false, "", 0, 0⟩

/-- Decoding a top-level value into `output{}`. -/
def decodeOutput : JsonText → Except String output
  | .object members => decodeMembers members zeroOutput
  | .null => .ok zeroOutput
  | .nonObject => .error "json: cannot unmarshal into Go value of type main.output"

/-- `json.Unmarshal` into `output{}`, given the reading of the text as JSON
(`none` for text that is not valid JSON). -/
def jsonUnmarshal (parseJSON : String → Option JsonText) (arguments : String) :
    Except String output :=
  match parseJSON arguments with
  | none => .error "invalid character"
  | some text => decodeOutput text

/-- Payload: the empty JSON object. -/
def replyEmptyObject : String := "\x7b\x7d"

/-- Payload: only `finished`, as in the last reply of the specification's
Scenario A. -/
def replyOnlyFinished : String := "\x7b\"finished\":true\x7d"

/-- The reading as JSON of the payload texts used at concrete inputs; any other
text is treated as not being JSON (of those, only `replyNotJSON` is ever used). -/
def sampleParse (arguments : String) : Option JsonText :=
  if arguments = replyGrow then
    some (.object [("finished", .bool false), ("store", .bool false), ("markdown", .string ""),
      ("next_start_index", .number (some 0)), ("next_end_index", .number (some 3))])
  else if arguments = replyStoreA then
    some (.object [("finished", .bool false), ("store", .bool true),
      ("markdown", .string "## A"), ("next_start_index", .number (some 4)),
      ("next_end_index", .number (some 4))])
  else if arguments = replyFinished then
    some (.object [("finished", .bool true), ("store", .bool false), ("markdown", .string ""),
      ("next_start_index", .number (some (-1))), ("next_end_index", .number (some (-1)))])
  else if arguments = replyFinishedBeyond then
    some (.object [("finished", .bool true), ("store", .bool true),
      ("markdown", .string "## Z"), ("next_start_index", .number (some 0)),
      ("next_end_index", .number (some 7))])
  else if arguments = replyEmptyObject then some (.object [])
  else if arguments = replyOnlyFinished then some (.object [("finished", .bool true)])
  else none

/-! ## Basic facts about the definitions -/

theorem chunkAt_some {chunks : List String} {i : Int} {c : String}
    (h : chunkAt chunks i = some c) : 0 ≤ i ∧ i < chunks.length := by
  unfold chunkAt at h
  split at h
  · simp at h
  · rename_i hi
    have hlt : i.toNat < chunks.length := by
      rcases List.getElem?_eq_some.mp h with ⟨hlt, _⟩
      exact hlt
    omega

theorem appendChunks_some {chunks : List String} :
    ∀ (n : Nat) (i : Int) (acc cs : List String),
      appendChunks chunks (n + 1) i acc = some cs → 0 ≤ i ∧ i + n < chunks.length := by
  intro n
  induction n with
  | zero =>
    intro i acc cs h
    unfold appendChunks at h
    split at h
    · simp at h
    · rename_i c hc
      have := chunkAt_some hc
      omega
  | succ n ih =>
    intro i acc cs h
    unfold appendChunks at h
    split at h
    · simp at h
    · rename_i c hc
      have h1 := chunkAt_some hc
      have h2 := ih (i + 1) (acc ++ [c]) cs h
      push_cast
      omega

theorem inputChunks_some {chunks : List String} {startIndex endIndex : Int} {cs : List String}
    (h : inputChunks chunks startIndex endIndex = some cs) (hle : startIndex ≤ endIndex) :
    0 ≤ startIndex ∧ endIndex ≤ (chunks.length : Int) - 1 := by
  unfold inputChunks at h
  obtain ⟨n, hn⟩ : ∃ n : Nat, (endIndex - startIndex + 1).toNat = n + 1 :=
    ⟨(endIndex - startIndex).toNat, by omega⟩
  rw [hn] at h
  have := appendChunks_some n startIndex [] cs h
  omega

theorem buildInput_some {chunks : List String} {s : LoopState} {inputData : input}
    (h : buildInput chunks s = some inputData) :
    inputData.Iteration = s.iterationCounter ∧
    inputData.RetryLastIteration = s.retryLastIteration ∧
    inputData.MaxIndex = (chunks.length : Int) - 1 ∧
    inputData.StartIndex = s.startIndex ∧
    inputData.EndIndex = s.endIndex ∧
    inputChunks chunks s.startIndex s.endIndex = some inputData.Chunks := by
  unfold buildInput at h
  split at h
  · simp at h
  · rename_i cs hcs
    simp at h
    subst h
    simp [hcs]

theorem loop_nil (unmarshal : String → Except String output) (chunks : List String)
    (s : LoopState) :
    loop unmarshal chunks [] s =
      match buildInput chunks s with
      | none => ⟨[], .panicked⟩
      | some inputData => ⟨[inputData], .awaitingReply⟩ := by
  rw [loop]

theorem loop_panic (unmarshal : String → Except String output) (chunks : List String)
    (script : List CallResult) (s : LoopState) (h : buildInput chunks s = none) :
    loop unmarshal chunks script s = ⟨[], .panicked⟩ := by
  cases script <;> simp [loop, h]

theorem loop_stop (unmarshal : String → Except String output) (chunks : List String)
    (res : CallResult) (script : List CallResult) (s : LoopState) (inputData : input)
    (o : Outcome) (hb : buildInput chunks s = some inputData)
    (ha : afterCall unmarshal inputData (sent s) res = .stop o) :
    loop unmarshal chunks (res :: script) s = ⟨[inputData], o⟩ := by
  unfold sent at ha
  simp [loop, hb, ha]

theorem loop_next (unmarshal : String → Except String output) (chunks : List String)
    (res : CallResult) (script : List CallResult) (s s' : LoopState) (inputData : input)
    (hb : buildInput chunks s = some inputData)
    (ha : afterCall unmarshal inputData (sent s) res = .next s') :
    loop unmarshal chunks (res :: script) s =
      ⟨inputData :: (loop unmarshal chunks script s').requests,
       (loop unmarshal chunks script s').outcome⟩ := by
  unfold sent at ha
  simp [loop, hb, ha]

theorem argumentsOf_some {res : CallResult} {arguments : String}
    (h : argumentsOf res = some arguments) : res = call arguments := by
  unfold argumentsOf at h
  split at h
  · rename_i functionCall
    split at h
    · rename_i hn
      simp at h
      subst h
      cases functionCall
      simp_all [call]
    · simp at h
  · simp at h

theorem afterCall_of_parsed (unmarshal : String → Except String output) (inputData : input)
    (s : LoopState) (res : CallResult) (o : output) (h : parsed unmarshal res = some o) :
    afterCall unmarshal inputData s res =
      if o.Finished then .stop (.returned (some s.markdownChunks) none)
      else if o.NextEndIndex > inputData.MaxIndex then
        .stop (.returned none (some (.nextEndIndex o.NextEndIndex inputData.MaxIndex)))
      else if o.NextStartIndex > o.NextEndIndex then
        .stop (.returned none (some (.nextStartIndex o.NextStartIndex o.NextEndIndex)))
      else .next (advanced s o) := by
  unfold parsed at h
  split at h
  · simp at h
  · rename_i a ha
    have hres := argumentsOf_some ha
    subst hres
    split at h
    · rename_i o' ho
      simp at h
      subst h
      simp [afterCall, call, ho, advanced]
    · simp at h

theorem afterCall_of_unparsable (unmarshal : String → Except String output) (inputData : input)
    (s : LoopState) (res : CallResult) (h : unparsable unmarshal res = true) :
    ∃ err, afterCall unmarshal inputData s res =
      if s.retryLastIterationCounter ≥ 1 then
        .stop (.returned none (some (.unmarshalOutput s.retryLastIterationCounter err)))
      else .next (retried s) := by
  unfold unparsable at h
  split at h
  · simp at h
  · rename_i a ha
    have hres := argumentsOf_some ha
    subst hres
    split at h
    · simp at h
    · rename_i err he
      exact ⟨err, by simp [afterCall, call, he, retried]⟩

/-- A result that does not get to line 234 ends the run at once: a panic, or an
error other than the unmarshal error. -/
theorem afterCall_of_rejected (unmarshal : String → Except String output) (inputData : input)
    (s : LoopState) (res : CallResult) (h : argumentsOf res = none) :
    afterCall unmarshal inputData s res = .stop .panicked ∨
    ∃ e, afterCall unmarshal inputData s res = .stop (.returned none (some e)) ∧
      ∀ n err, e ≠ .unmarshalOutput n err := by
  unfold argumentsOf at h
  unfold afterCall
  split at h
  · rename_i functionCall
    split at h
    · simp at h
    · rename_i hn
      right
      exact ⟨.functionCallName functionCall.Name, by simp [hn], by simp⟩
  · rename_i hne
    cases res with
    | error err => right; exact ⟨.chatCompletionFailed err, by simp, by simp⟩
    | ok r =>
      obtain ⟨choices⟩ := r
      match choices with
      | [] => right; exact ⟨.choicesLength 0, by simp, by simp⟩
      | [⟨⟨none⟩⟩] => left; simp
      | [⟨⟨some functionCall⟩⟩] => exact absurd rfl (hne functionCall)
      | c1 :: c2 :: cs => right; exact ⟨.choicesLength (cs.length + 2), by simp, by simp⟩

theorem parsed_or_unparsable_or_rejected (unmarshal : String → Except String output)
    (res : CallResult) :
    (∃ o, parsed unmarshal res = some o ∧ unparsable unmarshal res = false) ∨
    (unparsable unmarshal res = true ∧ parsed unmarshal res = none) ∨
    (argumentsOf res = none ∧ unparsable unmarshal res = false ∧ parsed unmarshal res = none) := by
  unfold parsed unparsable
  cases h : argumentsOf res with
  | none => simp
  | some a =>
    cases hu : unmarshal a with
    | ok o => simp [hu]
    | error e => simp [hu]

/-- When the body falls through to the next iteration, the result was either an
unparsable reply met with retry counter below 1, or a parsed, non-finishing,
index-valid reply. -/
theorem afterCall_next {unmarshal : String → Except String output} {inputData : input}
    {s s' : LoopState} {res : CallResult}
    (h : afterCall unmarshal inputData s res = .next s') :
    (unparsable unmarshal res = true ∧ s.retryLastIterationCounter < 1 ∧ s' = retried s) ∨
    (∃ o, parsed unmarshal res = some o ∧ unparsable unmarshal res = false ∧
      o.Finished = false ∧ o.NextEndIndex ≤ inputData.MaxIndex ∧
      o.NextStartIndex ≤ o.NextEndIndex ∧ s' = advanced s o) := by
  rcases parsed_or_unparsable_or_rejected unmarshal res with ⟨o, hp, hu⟩ | ⟨hu, _⟩ | ⟨hr, _, _⟩
  · right
    rw [afterCall_of_parsed unmarshal inputData s res o hp] at h
    refine ⟨o, hp, hu, ?_⟩
    split at h
    · simp at h
    · split at h
      · simp at h
      · split at h
        · simp at h
        · rename_i h1 h2 h3
          simp at h
          refine ⟨by simpa using h1, by omega, by omega, h.symm⟩
  · left
    obtain ⟨err, he⟩ := afterCall_of_unparsable unmarshal inputData s res hu
    rw [he] at h
    split at h
    · simp at h
    · rename_i h1
      simp at h
      exact ⟨hu, by omega, h.symm⟩
  · rcases afterCall_of_rejected unmarshal inputData s res hr with h1 | ⟨e, h1, _⟩
    · rw [h1] at h; simp at h
    · rw [h1] at h; simp at h

/-- The window invariant of the loop: every request built from a state whose
window is non-empty lies inside the chunk list. -/
theorem loop_requests_window (unmarshal : String → Except String output)
    (chunks : List String) :
    ∀ (script : List CallResult) (s : LoopState), s.startIndex ≤ s.endIndex →
      ∀ req ∈ (loop unmarshal chunks script s).requests,
        req.MaxIndex = (chunks.length : Int) - 1 ∧
        0 ≤ req.StartIndex ∧ req.StartIndex ≤ req.EndIndex ∧ req.EndIndex ≤ req.MaxIndex := by
  have key : ∀ (s : LoopState) (inputData : input), s.startIndex ≤ s.endIndex →
      buildInput chunks s = some inputData →
      inputData.MaxIndex = (chunks.length : Int) - 1 ∧
      0 ≤ inputData.StartIndex ∧ inputData.StartIndex ≤ inputData.EndIndex ∧
      inputData.EndIndex ≤ inputData.MaxIndex := by
    intro s inputData hle hb
    obtain ⟨_, _, hm, hs, he, hc⟩ := buildInput_some hb
    have := inputChunks_some hc hle
    omega
  intro script
  induction script with
  | nil =>
    intro s hle req hreq
    rw [loop_nil] at hreq
    cases hb : buildInput chunks s with
    | none => simp [hb] at hreq
    | some inputData =>
      simp [hb] at hreq
      subst hreq
      exact key s _ hle hb
  | cons res rest ih =>
    intro s hle req hreq
    cases hb : buildInput chunks s with
    | none => simp [loop_panic unmarshal chunks _ s hb] at hreq
    | some inputData =>
      cases ha : afterCall unmarshal inputData (sent s) res with
      | stop o =>
        rw [loop_stop unmarshal chunks res rest s inputData o hb ha] at hreq
        simp at hreq
        subst hreq
        exact key s _ hle hb
      | next s' =>
        rw [loop_next unmarshal chunks res rest s s' inputData hb ha] at hreq
        simp at hreq
        rcases hreq with hreq | hreq
        · subst hreq
          exact key s _ hle hb
        · refine ih s' ?_ req hreq
          rcases afterCall_next ha with ⟨_, _, hs'⟩ | ⟨o, _, _, _, _, hle', hs'⟩
          · subst hs'; simpa [retried, sent] using hle
          · subst hs'; simpa [advanced] using hle'

/-- With three or more chunks the first request is window 0..2, iteration 0, no
retry flag, carrying the first three chunks. -/
theorem buildInput_initialState (c₀ c₁ c₂ : String) (rest : List String) :
    buildInput (c₀ :: c₁ :: c₂ :: rest) initialState =
      some { Iteration := 0
             RetryLastIteration := false
             MaxIndex := ((c₀ :: c₁ :: c₂ :: rest).length : Int) - 1
             StartIndex := 0
             EndIndex := 2
             Chunks := [c₀, c₁, c₂] } := by
  simp [buildInput, inputChunks, initialState, appendChunks, chunkAt]

/-! ## The claims -/

/-- C1, at the failing input: with two chunks the hard-coded first window 0..2
reads `chunks[2]`, which is out of range, so the run panics before any request
is built, whatever the oracle would have answered. -/
theorem convertChunksToMarkdown_two_chunks_panics
    (unmarshal : String → Except String output) (script : List CallResult) :
    convertChunksToMarkdown unmarshal ["a", "b"] script = ⟨[], .panicked⟩ :=
  loop_panic unmarshal ["a", "b"] script initialState (by decide)

/-- C2: every request of a run carries `max_index = len(chunks) - 1` and a window
with `0 ≤ start_index ≤ end_index ≤ max_index`. -/
theorem convertChunksToMarkdown_requests_window
    (unmarshal : String → Except String output) (chunks : List String)
    (script : List CallResult) (req : input)
    (hreq : req ∈ (convertChunksToMarkdown unmarshal chunks script).requests) :
    req.MaxIndex = (chunks.length : Int) - 1 ∧
    0 ≤ req.StartIndex ∧ req.StartIndex ≤ req.EndIndex ∧ req.EndIndex ≤ req.MaxIndex :=
  loop_requests_window unmarshal chunks script initialState (by decide) req hreq

/-- C2 at a concrete run: five chunks, the second request has window 0..3. -/
theorem convertChunksToMarkdown_requests_window_witness :
    (⟨1, false, 4, 0, 3, ["a", "b", "c", "d"]⟩ : input) ∈
        (convertChunksToMarkdown sampleUnmarshal ["a", "b", "c", "d", "e"]
          [call replyGrow, call replyStoreA, call replyFinished]).requests ∧
      ((4 : Int) = (([("a" : String), "b", "c", "d", "e"].length : Nat) : Int) - 1 ∧
        (0 : Int) ≤ 0 ∧ (0 : Int) ≤ 3 ∧ (3 : Int) ≤ 4) :=
  ⟨by decide,
   convertChunksToMarkdown_requests_window sampleUnmarshal ["a", "b", "c", "d", "e"]
     [call replyGrow, call replyStoreA, call replyFinished]
     ⟨1, false, 4, 0, 3, ["a", "b", "c", "d"]⟩ (by decide)⟩

/-- C3, counterexample: three chunks (max index 2) and a parsed reply with
`finished = true`, `next_end_index = 7`: the run returns the empty list and no
error instead of failing. -/
theorem finished_reply_skips_index_validation :
    parsed sampleUnmarshal (call replyFinishedBeyond) = some ⟨true, true, "## Z", 0, 7⟩ ∧
    (7 : Int) > (([("a" : String), "b", "c"].length : Nat) : Int) - 1 ∧
    convertChunksToMarkdown sampleUnmarshal ["a", "b", "c"] [call replyFinishedBeyond] =
      ⟨[⟨0, false, 2, 0, 2, ["a", "b", "c"]⟩], .returned (some []) none⟩ := by
  decide

/-- C3, amended: index validation applies to parsed replies with
`finished = false`. For such a reply, `next_end_index > max_index` or
`next_start_index > next_end_index` makes the run return an error with no
further oracle call. A parsed reply with `finished = true` ends the run with the
accumulated list and no error, whatever its indices. -/
theorem index_validation_after_finished_check
    (unmarshal : String → Except String output) (chunks : List String) (s : LoopState)
    (inputData : input) (res : CallResult) (script : List CallResult) (o : output)
    (hb : buildInput chunks s = some inputData) (hp : parsed unmarshal res = some o) :
    inputData.MaxIndex = (chunks.length : Int) - 1 ∧
    (o.Finished = false →
      (o.NextEndIndex > inputData.MaxIndex ∨ o.NextStartIndex > o.NextEndIndex) →
      ∃ e, loop unmarshal chunks (res :: script) s = ⟨[inputData], .returned none (some e)⟩) ∧
    (o.Finished = true →
      loop unmarshal chunks (res :: script) s =
        ⟨[inputData], .returned (some s.markdownChunks) none⟩) := by
  have ha := afterCall_of_parsed unmarshal inputData (sent s) res o hp
  refine ⟨(buildInput_some hb).2.2.1, ?_, ?_⟩
  · intro hf hv
    simp only [hf, Bool.false_eq_true, if_false] at ha
    by_cases h1 : o.NextEndIndex > inputData.MaxIndex
    · rw [if_pos h1] at ha
      exact ⟨_, loop_stop unmarshal chunks res script s inputData _ hb ha⟩
    · have h2 : o.NextStartIndex > o.NextEndIndex := by
        rcases hv with hv | hv
        · exact absurd hv h1
        · exact hv
      rw [if_neg h1, if_pos h2] at ha
      exact ⟨_, loop_stop unmarshal chunks res script s inputData _ hb ha⟩
  · intro hf
    simp only [hf, if_true] at ha
    exact loop_stop unmarshal chunks res script s inputData _ hb ha

/-- C3 (amended) at a concrete run: three chunks, a non-finishing reply asking
for window 0..3 is fatal. -/
theorem index_validation_after_finished_check_witness :
    buildInput ["a", "b", "c"] initialState = some ⟨0, false, 2, 0, 2, ["a", "b", "c"]⟩ ∧
    parsed sampleUnmarshal (call replyGrow) = some ⟨false, false, "", 0, 3⟩ ∧
    ∃ e, loop sampleUnmarshal ["a", "b", "c"] [call replyGrow, call replyFinished] initialState =
      ⟨[⟨0, false, 2, 0, 2, ["a", "b", "c"]⟩], .returned none (some e)⟩ :=
  ⟨by decide, by decide,
   (index_validation_after_finished_check sampleUnmarshal ["a", "b", "c"] initialState
      ⟨0, false, 2, 0, 2, ["a", "b", "c"]⟩ (call replyGrow) [call replyFinished]
      ⟨false, false, "", 0, 3⟩ (by decide) (by decide)).2.1 rfl (Or.inl (by decide))⟩

/-- C4: for a parsed reply with `finished = false` the body returns an error
exactly when `next_end_index > max_index` or `next_start_index > next_end_index`.
Otherwise the loop goes on from the advanced state; in particular it does so for
`next_end_index = max_index` with `next_start_index ≤ next_end_index`. With
`next_end_index = max_index + 1` the run ends at once with the end-index error
and no further request. -/
theorem non_finishing_reply_fails_iff_index_violation
    (unmarshal : String → Except String output) (chunks : List String) (s : LoopState)
    (inputData : input) (res : CallResult) (script : List CallResult) (o : output)
    (hb : buildInput chunks s = some inputData) (hp : parsed unmarshal res = some o)
    (hf : o.Finished = false) :
    ((∃ e, afterCall unmarshal inputData (sent s) res = .stop (.returned none (some e))) ↔
      (o.NextEndIndex > inputData.MaxIndex ∨ o.NextStartIndex > o.NextEndIndex)) ∧
    (¬ (o.NextEndIndex > inputData.MaxIndex ∨ o.NextStartIndex > o.NextEndIndex) →
      loop unmarshal chunks (res :: script) s =
        ⟨inputData :: (loop unmarshal chunks script (advanced (sent s) o)).requests,
         (loop unmarshal chunks script (advanced (sent s) o)).outcome⟩) ∧
    (o.NextEndIndex = inputData.MaxIndex → o.NextStartIndex ≤ o.NextEndIndex →
      loop unmarshal chunks (res :: script) s =
        ⟨inputData :: (loop unmarshal chunks script (advanced (sent s) o)).requests,
         (loop unmarshal chunks script (advanced (sent s) o)).outcome⟩) ∧
    (o.NextEndIndex = inputData.MaxIndex + 1 →
      loop unmarshal chunks (res :: script) s =
        ⟨[inputData],
         .returned none (some (.nextEndIndex o.NextEndIndex inputData.MaxIndex))⟩) := by
  have ha := afterCall_of_parsed unmarshal inputData (sent s) res o hp
  simp only [hf, Bool.false_eq_true, if_false] at ha
  have hcont : ¬ (o.NextEndIndex > inputData.MaxIndex ∨ o.NextStartIndex > o.NextEndIndex) →
      loop unmarshal chunks (res :: script) s =
        ⟨inputData :: (loop unmarshal chunks script (advanced (sent s) o)).requests,
         (loop unmarshal chunks script (advanced (sent s) o)).outcome⟩ := by
    intro hv
    have h1 : ¬ o.NextEndIndex > inputData.MaxIndex := fun h => hv (Or.inl h)
    have h2 : ¬ o.NextStartIndex > o.NextEndIndex := fun h => hv (Or.inr h)
    rw [if_neg h1, if_neg h2] at ha
    exact loop_next unmarshal chunks res script s _ inputData hb ha
  refine ⟨⟨?_, ?_⟩, hcont, ?_, ?_⟩
  · rintro ⟨e, he⟩
    by_contra hv
    have h1 : ¬ o.NextEndIndex > inputData.MaxIndex := fun h => hv (Or.inl h)
    have h2 : ¬ o.NextStartIndex > o.NextEndIndex := fun h => hv (Or.inr h)
    rw [if_neg h1, if_neg h2] at ha
    rw [ha] at he
    simp at he
  · intro hv
    by_cases h1 : o.NextEndIndex > inputData.MaxIndex
    · rw [if_pos h1] at ha
      exact ⟨_, ha⟩
    · have h2 : o.NextStartIndex > o.NextEndIndex := by
        rcases hv with hv | hv
        · exact absurd hv h1
        · exact hv
      rw [if_neg h1, if_pos h2] at ha
      exact ⟨_, ha⟩
  · intro he hle
    apply hcont
    omega
  · intro he
    have h1 : o.NextEndIndex > inputData.MaxIndex := by omega
    rw [if_pos h1] at ha
    exact loop_stop unmarshal chunks res script s inputData _ hb ha

/-- C4 at a concrete state: five chunks (max index 4), a non-finishing reply
asking for window 4..4 is accepted and the loop goes on with that window. -/
theorem non_finishing_reply_fails_iff_index_violation_witness :
    buildInput ["a", "b", "c", "d", "e"] initialState =
      some ⟨0, false, 4, 0, 2, ["a", "b", "c"]⟩ ∧
    parsed sampleUnmarshal (call replyStoreA) = some ⟨false, true, "## A", 4, 4⟩ ∧
    loop sampleUnmarshal ["a", "b", "c", "d", "e"] [call replyStoreA] initialState =
      ⟨(⟨0, false, 4, 0, 2, ["a", "b", "c"]⟩ : input) ::
         (loop sampleUnmarshal ["a", "b", "c", "d", "e"] []
           (advanced (sent initialState) ⟨false, true, "## A", 4, 4⟩)).requests,
       (loop sampleUnmarshal ["a", "b", "c", "d", "e"] []
           (advanced (sent initialState) ⟨false, true, "## A", 4, 4⟩)).outcome⟩ :=
  ⟨by decide, by decide,
   (non_finishing_reply_fails_iff_index_violation sampleUnmarshal ["a", "b", "c", "d", "e"]
      initialState ⟨0, false, 4, 0, 2, ["a", "b", "c"]⟩ (call replyStoreA) []
      ⟨false, true, "## A", 4, 4⟩ (by decide) (by decide) rfl).2.2.1 (by decide) (by decide)⟩

theorem parsed_none_of_unparsable {unmarshal : String → Except String output}
    {res : CallResult} (h : unparsable unmarshal res = true) : parsed unmarshal res = none := by
  rcases parsed_or_unparsable_or_rejected unmarshal res with ⟨o, _, hu⟩ | ⟨_, hp⟩ | ⟨_, _, hp⟩
  · rw [h] at hu; simp at hu
  · exact hp
  · exact hp

/-- Re-sending after a first parse failure builds the same request with the
retry flag set. -/
theorem buildInput_retried {chunks : List String} {s : LoopState} {inputData : input}
    (h : buildInput chunks s = some inputData) :
    buildInput chunks (retried (sent s)) = some { inputData with RetryLastIteration := true } := by
  unfold buildInput at h ⊢
  simp only [retried, sent]
  split at h
  · simp at h
  · rename_i cs hcs
    simp at h
    subst h
    simp [hcs]

/-- The accumulated list at any point of the loop is a prefix of what a
successful run returns, and what follows it is the contribution of each result
consumed from there on, in order. -/
theorem loop_returned_list (unmarshal : String → Except String output)
    (chunks : List String) :
    ∀ (script : List CallResult) (s : LoopState) (md : List String),
      (loop unmarshal chunks script s).outcome = .returned (some md) none →
      md = s.markdownChunks ++
        (script.take (loop unmarshal chunks script s).requests.length).flatMap
          (contribution unmarshal ((chunks.length : Int) - 1)) := by
  intro script
  induction script with
  | nil =>
    intro s md h
    rw [loop_nil] at h
    cases hb : buildInput chunks s <;> simp [hb] at h
  | cons res rest ih =>
    intro s md h
    cases hb : buildInput chunks s with
    | none => simp [loop_panic unmarshal chunks _ s hb] at h
    | some inputData =>
      have hmax : inputData.MaxIndex = (chunks.length : Int) - 1 := (buildInput_some hb).2.2.1
      cases ha : afterCall unmarshal inputData (sent s) res with
      | stop o =>
        rw [loop_stop unmarshal chunks res rest s inputData o hb ha] at h ⊢
        simp only at h
        subst h
        rcases parsed_or_unparsable_or_rejected unmarshal res with
          ⟨o, hp, _⟩ | ⟨hu, _⟩ | ⟨hr, _, _⟩
        · rw [afterCall_of_parsed unmarshal inputData (sent s) res o hp] at ha
          by_cases hf : o.Finished = true
          · simp [hf, sent] at ha
            simp [contribution, hp, hf, ha]
          · simp [hf] at ha
            split at ha
            · simp at ha
            · split at ha <;> simp at ha
        · obtain ⟨err, he⟩ := afterCall_of_unparsable unmarshal inputData (sent s) res hu
          rw [he] at ha
          split at ha <;> simp at ha
        · rcases afterCall_of_rejected unmarshal inputData (sent s) res hr with h1 | ⟨e, h1, _⟩
          · rw [h1] at ha; simp at ha
          · rw [h1] at ha; simp at ha
      | next s' =>
        rw [loop_next unmarshal chunks res rest s s' inputData hb ha] at h ⊢
        simp only at h
        have hih := ih s' md h
        simp only [List.length_cons, List.take_succ_cons, List.flatMap_cons]
        rw [hih, ← List.append_assoc]
        congr 1
        rcases afterCall_next ha with ⟨hu, _, hs'⟩ | ⟨o, hp, _, hf, hle1, hle2, hs'⟩
        · subst hs'
          simp [contribution, parsed_none_of_unparsable hu, retried, sent]
        · subst hs'
          rw [hmax] at hle1
          by_cases hst : o.Store = true
          · simp [contribution, hp, hf, hle1, hle2, hst, advanced, sent]
          · simp [contribution, hp, hf, hst, advanced, sent]

/-- C5: the list a successful run returns is the accumulated list of the state
the loop was entered in (empty for `convertChunksToMarkdown`), followed, in order
of arrival, by the markdown of each consumed reply that parsed, was not
finishing, passed the index checks and had `store = true`; every other consumed
result, the finishing reply included, adds nothing. -/
theorem returned_list_is_stored_markdown
    (unmarshal : String → Except String output) (chunks : List String)
    (script : List CallResult) (md : List String)
    (h : (convertChunksToMarkdown unmarshal chunks script).outcome = .returned (some md) none) :
    md = (script.take (convertChunksToMarkdown unmarshal chunks script).requests.length).flatMap
          (contribution unmarshal ((chunks.length : Int) - 1)) ∧
    ∀ (s : LoopState) (later : List CallResult) (md' : List String),
      (loop unmarshal chunks later s).outcome = .returned (some md') none →
      md' = s.markdownChunks ++
        (later.take (loop unmarshal chunks later s).requests.length).flatMap
          (contribution unmarshal ((chunks.length : Int) - 1)) := by
  refine ⟨?_, fun s later md' h' => loop_returned_list unmarshal chunks later s md' h'⟩
  have := loop_returned_list unmarshal chunks script initialState md h
  simpa [initialState, convertChunksToMarkdown] using this

/-- C5 at Scenario A: five chunks; replies "store nothing, next 0..3",
"store the passage, next 4..4", "finished" give the list with the one passage
"## A". -/
theorem returned_list_is_stored_markdown_witness :
    convertChunksToMarkdown sampleUnmarshal ["a", "b", "c", "d", "e"]
        [call replyGrow, call replyStoreA, call replyFinished] =
      ⟨[⟨0, false, 4, 0, 2, ["a", "b", "c"]⟩, ⟨1, false, 4, 0, 3, ["a", "b", "c", "d"]⟩,
        ⟨2, false, 4, 4, 4, ["e"]⟩], .returned (some ["## A"]) none⟩ ∧
    ["## A"] = (List.take 3 [call replyGrow, call replyStoreA, call replyFinished]).flatMap
        (contribution sampleUnmarshal 4) :=
  ⟨by decide,
   (returned_list_is_stored_markdown sampleUnmarshal ["a", "b", "c", "d", "e"]
     [call replyGrow, call replyStoreA, call replyFinished] ["## A"] (by decide)).1⟩

/-- C6: entered with retry counter 0, two unparsable replies in a row make the
loop send the request, send it once more with the retry flag set, and return the
unmarshal error with retry count 1; whatever the oracle would have answered
after that is never asked for. -/
theorem two_unparsable_replies_are_fatal
    (unmarshal : String → Except String output) (chunks : List String) (s : LoopState)
    (inputData : input) (res₁ res₂ : CallResult) (script : List CallResult)
    (hb : buildInput chunks s = some inputData) (hc : s.retryLastIterationCounter = 0)
    (h₁ : unparsable unmarshal res₁ = true) (h₂ : unparsable unmarshal res₂ = true) :
    ∃ err, loop unmarshal chunks (res₁ :: res₂ :: script) s =
      ⟨[inputData, { inputData with RetryLastIteration := true }],
       .returned none (some (.unmarshalOutput 1 err))⟩ := by
  obtain ⟨e₁, he₁⟩ := afterCall_of_unparsable unmarshal inputData (sent s) res₁ h₁
  have hn : ¬ (sent s).retryLastIterationCounter ≥ 1 := by simp [sent, hc]
  rw [if_neg hn] at he₁
  have hb' := buildInput_retried hb
  obtain ⟨e₂, he₂⟩ := afterCall_of_unparsable unmarshal
    { inputData with RetryLastIteration := true } (sent (retried (sent s))) res₂ h₂
  have hp : (sent (retried (sent s))).retryLastIterationCounter ≥ 1 := by
    simp [sent, retried, hc]
  have hv : (sent (retried (sent s))).retryLastIterationCounter = 1 := by
    simp [sent, retried, hc]
  rw [if_pos hp, hv] at he₂
  refine ⟨e₂, ?_⟩
  rw [loop_next unmarshal chunks res₁ (res₂ :: script) s _ inputData hb he₁,
    loop_stop unmarshal chunks res₂ script _ _ _ hb' he₂]

/-- C6 at Scenario C: three chunks, two replies that are not JSON, and a third
result that is never consumed. -/
theorem two_unparsable_replies_are_fatal_witness :
    buildInput ["a", "b", "c"] initialState = some ⟨0, false, 2, 0, 2, ["a", "b", "c"]⟩ ∧
    initialState.retryLastIterationCounter = 0 ∧
    unparsable sampleUnmarshal (call replyNotJSON) = true ∧
    ∃ err, loop sampleUnmarshal ["a", "b", "c"]
        (call replyNotJSON :: call replyNotJSON :: [call replyFinished]) initialState =
      ⟨[⟨0, false, 2, 0, 2, ["a", "b", "c"]⟩, ⟨0, true, 2, 0, 2, ["a", "b", "c"]⟩],
       .returned none (some (.unmarshalOutput 1 err))⟩ :=
  ⟨by decide, rfl, by decide,
   two_unparsable_replies_are_fatal sampleUnmarshal ["a", "b", "c"] initialState
     ⟨0, false, 2, 0, 2, ["a", "b", "c"]⟩ (call replyNotJSON) (call replyNotJSON)
     [call replyFinished] (by decide) rfl (by decide) (by decide)⟩

theorem loop_requests_head (unmarshal : String → Except String output) (chunks : List String)
    (script : List CallResult) (s : LoopState) :
    (loop unmarshal chunks script s).requests[0]? = buildInput chunks s := by
  cases hb : buildInput chunks s with
  | none => simp [loop_panic unmarshal chunks script s hb]
  | some inputData =>
    cases script with
    | nil => simp [loop_nil, hb]
    | cons res rest =>
      cases ha : afterCall unmarshal inputData (sent s) res with
      | stop o => simp [loop_stop unmarshal chunks res rest s inputData o hb ha]
      | next s' => simp [loop_next unmarshal chunks res rest s s' inputData hb ha]

theorem retryConsistent_next {unmarshal : String → Except String output} {inputData : input}
    {s s' : LoopState} {res : CallResult} (hs : RetryConsistent s)
    (h : afterCall unmarshal inputData (sent s) res = .next s') : RetryConsistent s' := by
  rcases afterCall_next h with ⟨_, hc, hs'⟩ | ⟨o, _, _, _, _, _, hs'⟩
  · subst hs'
    left
    rcases hs with ⟨_, h1⟩ | ⟨_, h0⟩
    · simp [sent, h1] at hc
    · simp [retried, sent, h0]
  · subst hs'
    right
    simp [advanced, sent]

/-- The iteration field never goes down along a run. -/
theorem loop_requests_iteration_ge (unmarshal : String → Except String output)
    (chunks : List String) :
    ∀ (script : List CallResult) (s : LoopState),
      ∀ req ∈ (loop unmarshal chunks script s).requests, s.iterationCounter ≤ req.Iteration := by
  intro script
  induction script with
  | nil =>
    intro s req hreq
    rw [loop_nil] at hreq
    cases hb : buildInput chunks s with
    | none => simp [hb] at hreq
    | some inputData =>
      simp [hb] at hreq
      subst hreq
      exact le_of_eq (buildInput_some hb).1.symm
  | cons res rest ih =>
    intro s req hreq
    cases hb : buildInput chunks s with
    | none => simp [loop_panic unmarshal chunks _ s hb] at hreq
    | some inputData =>
      have hit := (buildInput_some hb).1
      cases ha : afterCall unmarshal inputData (sent s) res with
      | stop o =>
        rw [loop_stop unmarshal chunks res rest s inputData o hb ha] at hreq
        simp at hreq
        subst hreq
        exact le_of_eq hit.symm
      | next s' =>
        rw [loop_next unmarshal chunks res rest s s' inputData hb ha] at hreq
        simp at hreq
        rcases hreq with hreq | hreq
        · subst hreq
          exact le_of_eq hit.symm
        · have := ih s' req hreq
          rcases afterCall_next ha with ⟨_, _, hs'⟩ | ⟨o, _, _, _, _, _, hs'⟩
          · subst hs'
            simpa [retried, sent] using this
          · subst hs'
            simp [advanced, sent] at this
            omega

/-- Per iteration number, at most one request of the loop carries the retry
flag. -/
theorem loop_retried_per_iteration (unmarshal : String → Except String output)
    (chunks : List String) (k : Int) :
    ∀ (script : List CallResult) (s : LoopState), RetryConsistent s →
      (loop unmarshal chunks script s).requests.countP (isRetryOf k) ≤ 1 := by
  intro script
  induction script with
  | nil =>
    intro s _
    rw [loop_nil]
    cases hb : buildInput chunks s with
    | none => simp
    | some inputData =>
      simp only [List.countP_cons, List.countP_nil]
      split <;> simp
  | cons res rest ih =>
    intro s hs
    cases hb : buildInput chunks s with
    | none => simp [loop_panic unmarshal chunks _ s hb]
    | some inputData =>
      obtain ⟨hit, hfl, _⟩ := buildInput_some hb
      cases ha : afterCall unmarshal inputData (sent s) res with
      | stop o =>
        rw [loop_stop unmarshal chunks res rest s inputData o hb ha]
        simp only [List.countP_cons, List.countP_nil]
        split <;> simp
      | next s' =>
        rw [loop_next unmarshal chunks res rest s s' inputData hb ha]
        simp only [List.countP_cons]
        have hih := ih s' (retryConsistent_next hs ha)
        by_cases hp : isRetryOf k inputData = true
        · rw [if_pos hp]
          have hz : (loop unmarshal chunks rest s').requests.countP (isRetryOf k) = 0 := by
            rw [List.countP_eq_zero]
            intro req hreq hpr
            have hge := loop_requests_iteration_ge unmarshal chunks rest s' req hreq
            simp [isRetryOf] at hp hpr
            rcases afterCall_next ha with ⟨_, hc, _⟩ | ⟨o, _, _, _, _, _, hs'⟩
            · rcases hs with ⟨_, h1⟩ | ⟨h0, _⟩
              · simp [sent, h1] at hc
              · rw [hfl, h0] at hp
                simp at hp
            · subst hs'
              simp [advanced, sent] at hge
              omega
          omega
        · rw [if_neg hp]
          omega

/-- C7, counterexample: five chunks, replies "not JSON", "next 0..3", "not JSON",
"finished": the run succeeds and two of its four requests carry
`retry_last_iteration = true`. -/
theorem two_retries_in_one_run :
    convertChunksToMarkdown sampleUnmarshal ["a", "b", "c", "d", "e"]
        [call replyNotJSON, call replyGrow, call replyNotJSON, call replyFinished] =
      ⟨[⟨0, false, 4, 0, 2, ["a", "b", "c"]⟩, ⟨0, true, 4, 0, 2, ["a", "b", "c"]⟩,
        ⟨1, false, 4, 0, 3, ["a", "b", "c", "d"]⟩, ⟨1, true, 4, 0, 3, ["a", "b", "c", "d"]⟩],
       .returned (some []) none⟩ ∧
    ((convertChunksToMarkdown sampleUnmarshal ["a", "b", "c", "d", "e"]
        [call replyNotJSON, call replyGrow, call replyNotJSON, call replyFinished]).requests.countP
      (fun req => req.RetryLastIteration)) = 2 := by
  decide

/-- C7, amended: the bound is one retry per iteration. For every iteration
number `k`, at most one request of a run has `iteration = k` and
`retry_last_iteration = true`. -/
theorem at_most_one_retry_per_iteration
    (unmarshal : String → Except String output) (chunks : List String)
    (script : List CallResult) (k : Int) :
    (convertChunksToMarkdown unmarshal chunks script).requests.countP (isRetryOf k) ≤ 1 :=
  loop_retried_per_iteration unmarshal chunks k script initialState (Or.inr ⟨rfl, rfl⟩)

/-- C9: on a parse failure met with retry counter 0 the body sets the retry flag
and the counter and nothing else: window, iteration counter and accumulated list
are unchanged, and the next request is the one just sent with
`retry_last_iteration = true`. -/
theorem first_parse_failure_resends_same_request
    (unmarshal : String → Except String output) (chunks : List String) (s : LoopState)
    (inputData : input) (res : CallResult) (script : List CallResult)
    (hb : buildInput chunks s = some inputData) (hc : s.retryLastIterationCounter = 0)
    (hu : unparsable unmarshal res = true) :
    afterCall unmarshal inputData (sent s) res = .next (retried (sent s)) ∧
    retried (sent s) =
      { s with retryLastIteration := true, retryLastIterationCounter := 1 } ∧
    buildInput chunks (retried (sent s)) =
      some { inputData with RetryLastIteration := true } ∧
    (loop unmarshal chunks (res :: script) s).requests[0]? = some inputData ∧
    (loop unmarshal chunks (res :: script) s).requests[1]? =
      some { Iteration := inputData.Iteration
             RetryLastIteration := true
             MaxIndex := inputData.MaxIndex
             StartIndex := inputData.StartIndex
             EndIndex := inputData.EndIndex
             Chunks := inputData.Chunks } := by
  obtain ⟨e, he⟩ := afterCall_of_unparsable unmarshal inputData (sent s) res hu
  have hn : ¬ (sent s).retryLastIterationCounter ≥ 1 := by simp [sent, hc]
  rw [if_neg hn] at he
  have hb' := buildInput_retried hb
  refine ⟨he, by simp [retried, sent, hc], hb', ?_, ?_⟩
  · rw [loop_requests_head, hb]
  · rw [loop_next unmarshal chunks res script s _ inputData hb he]
    simp only [List.getElem?_cons_succ]
    rw [loop_requests_head, hb']

/-- C9 at a concrete state: three chunks, first reply not JSON. -/
theorem first_parse_failure_resends_same_request_witness :
    buildInput ["a", "b", "c"] initialState = some ⟨0, false, 2, 0, 2, ["a", "b", "c"]⟩ ∧
    initialState.retryLastIterationCounter = 0 ∧
    unparsable sampleUnmarshal (call replyNotJSON) = true ∧
    (loop sampleUnmarshal ["a", "b", "c"] [call replyNotJSON] initialState).requests[1]? =
      some ⟨0, true, 2, 0, 2, ["a", "b", "c"]⟩ :=
  ⟨by decide, rfl, by decide,
   (first_parse_failure_resends_same_request sampleUnmarshal ["a", "b", "c"] initialState
     ⟨0, false, 2, 0, 2, ["a", "b", "c"]⟩ (call replyNotJSON) [] (by decide) rfl
     (by decide)).2.2.2.2⟩

/-- A request after the first carries the retry flag exactly when the reply
consumed just before it was unparsable. -/
theorem loop_retry_flag (unmarshal : String → Except String output) (chunks : List String) :
    ∀ (script : List CallResult) (s : LoopState) (i : Nat) (req : input),
      (loop unmarshal chunks script s).requests[i + 1]? = some req →
      ∃ res, script[i]? = some res ∧ req.RetryLastIteration = unparsable unmarshal res := by
  intro script
  induction script with
  | nil =>
    intro s i req h
    rw [loop_nil] at h
    cases hb : buildInput chunks s <;> simp [hb] at h
  | cons res rest ih =>
    intro s i req h
    cases hb : buildInput chunks s with
    | none => simp [loop_panic unmarshal chunks _ s hb] at h
    | some inputData =>
      cases ha : afterCall unmarshal inputData (sent s) res with
      | stop o => simp [loop_stop unmarshal chunks res rest s inputData o hb ha] at h
      | next s' =>
        rw [loop_next unmarshal chunks res rest s s' inputData hb ha] at h
        simp only [List.getElem?_cons_succ] at h
        cases i with
        | zero =>
          rw [loop_requests_head] at h
          have hfl := (buildInput_some h).2.1
          refine ⟨res, by simp, ?_⟩
          rcases afterCall_next ha with ⟨hu, _, hs'⟩ | ⟨o, _, hu, _, _, _, hs'⟩
          · subst hs'
            rw [hfl, hu]
            simp [retried]
          · subst hs'
            rw [hfl, hu]
            simp [advanced, sent]
        | succ j =>
          obtain ⟨r, hr, hflag⟩ := ih s' j req h
          exact ⟨r, by simpa using hr, hflag⟩

/-- The reply to a request sent without the retry flag, when unparsable, is
answered by the same request with the flag set. -/
theorem loop_first_failure_retried (unmarshal : String → Except String output)
    (chunks : List String) :
    ∀ (script : List CallResult) (s : LoopState), RetryConsistent s →
      ∀ (i : Nat) (req : input) (res : CallResult),
        (loop unmarshal chunks script s).requests[i]? = some req →
        req.RetryLastIteration = false → script[i]? = some res →
        unparsable unmarshal res = true →
        (loop unmarshal chunks script s).requests[i + 1]? =
          some { req with RetryLastIteration := true } := by
  intro script
  induction script with
  | nil => intro s _ i req res _ _ hres; simp at hres
  | cons res₀ rest ih =>
    intro s hs i req res hreq hflag hres hu
    cases hb : buildInput chunks s with
    | none => simp [loop_panic unmarshal chunks _ s hb] at hreq
    | some inputData =>
      cases i with
      | zero =>
        rw [loop_requests_head, hb] at hreq
        simp at hreq hres
        subst hreq hres
        have hfl := (buildInput_some hb).2.1
        have hc : s.retryLastIterationCounter = 0 := by
          rcases hs with ⟨h1, _⟩ | ⟨_, h0⟩
          · rw [hfl, h1] at hflag; simp at hflag
          · exact h0
        obtain ⟨e, he⟩ := afterCall_of_unparsable unmarshal inputData (sent s) res₀ hu
        have hn : ¬ (sent s).retryLastIterationCounter ≥ 1 := by simp [sent, hc]
        rw [if_neg hn] at he
        rw [loop_next unmarshal chunks res₀ rest s _ inputData hb he]
        simp only [List.getElem?_cons_succ]
        rw [loop_requests_head, buildInput_retried hb]
      | succ j =>
        cases ha : afterCall unmarshal inputData (sent s) res₀ with
        | stop o => simp [loop_stop unmarshal chunks res₀ rest s inputData o hb ha] at hreq
        | next s' =>
          rw [loop_next unmarshal chunks res₀ rest s s' inputData hb ha] at hreq ⊢
          simp only [List.getElem?_cons_succ] at hreq hres ⊢
          exact ih s' (retryConsistent_next hs ha) j req res hreq hflag hres hu

/-- The loop returns the unmarshal error exactly when the reply to a request
sent with the retry flag is unparsable. -/
theorem loop_parse_error_iff (unmarshal : String → Except String output)
    (chunks : List String) :
    ∀ (script : List CallResult) (s : LoopState), RetryConsistent s →
      ((∃ n err, (loop unmarshal chunks script s).outcome =
          .returned none (some (.unmarshalOutput n err))) ↔
        ∃ (i : Nat) (req : input) (res : CallResult),
          (loop unmarshal chunks script s).requests[i]? = some req ∧
          req.RetryLastIteration = true ∧ script[i]? = some res ∧
          unparsable unmarshal res = true) := by
  intro script
  induction script with
  | nil =>
    intro s _
    constructor
    · rintro ⟨n, err, h⟩
      rw [loop_nil] at h
      cases hb : buildInput chunks s <;> simp [hb] at h
    · rintro ⟨i, req, res, _, _, hres, _⟩
      simp at hres
  | cons res₀ rest ih =>
    intro s hs
    cases hb : buildInput chunks s with
    | none =>
      rw [loop_panic unmarshal chunks _ s hb]
      constructor
      · rintro ⟨n, err, h⟩; simp at h
      · rintro ⟨i, req, res, hreq, _⟩; simp at hreq
    | some inputData =>
      have hfl := (buildInput_some hb).2.1
      cases ha : afterCall unmarshal inputData (sent s) res₀ with
      | stop o =>
        rw [loop_stop unmarshal chunks res₀ rest s inputData o hb ha]
        constructor
        · rintro ⟨n, err, h⟩
          simp only at h
          subst h
          refine ⟨0, inputData, res₀, by simp, ?_, by simp, ?_⟩
          · rcases parsed_or_unparsable_or_rejected unmarshal res₀ with
              ⟨o, hp, _⟩ | ⟨hu, _⟩ | ⟨hr, _, _⟩
            · rw [afterCall_of_parsed unmarshal inputData (sent s) res₀ o hp] at ha
              split at ha
              · simp at ha
              · split at ha
                · simp at ha
                · split at ha <;> simp at ha
            · obtain ⟨e, he⟩ := afterCall_of_unparsable unmarshal inputData (sent s) res₀ hu
              rw [he] at ha
              split at ha
              · rename_i hge
                rcases hs with ⟨h1, _⟩ | ⟨_, h0⟩
                · rw [hfl, h1]
                · simp [sent, h0] at hge
              · simp at ha
            · rcases afterCall_of_rejected unmarshal inputData (sent s) res₀ hr with
                h1 | ⟨e, h1, hne⟩
              · rw [h1] at ha; simp at ha
              · rw [h1] at ha
                simp at ha
                exact absurd ha (hne n err)
          · rcases parsed_or_unparsable_or_rejected unmarshal res₀ with
              ⟨o, hp, _⟩ | ⟨hu, _⟩ | ⟨hr, _, _⟩
            · rw [afterCall_of_parsed unmarshal inputData (sent s) res₀ o hp] at ha
              split at ha
              · simp at ha
              · split at ha
                · simp at ha
                · split at ha <;> simp at ha
            · exact hu
            · rcases afterCall_of_rejected unmarshal inputData (sent s) res₀ hr with
                h1 | ⟨e, h1, hne⟩
              · rw [h1] at ha; simp at ha
              · rw [h1] at ha
                simp at ha
                exact absurd ha (hne n err)
        · rintro ⟨i, req, res, hreq, hflag, hres, hu⟩
          cases i with
          | zero =>
            simp at hreq hres
            subst hreq hres
            obtain ⟨e, he⟩ := afterCall_of_unparsable unmarshal inputData (sent s) res₀ hu
            have hc : s.retryLastIterationCounter = 1 := by
              rcases hs with ⟨_, h1⟩ | ⟨h0, _⟩
              · exact h1
              · rw [hfl, h0] at hflag; simp at hflag
            have hge : (sent s).retryLastIterationCounter ≥ 1 := by simp [sent, hc]
            rw [if_pos hge, ha] at he
            simp at he
            exact ⟨(sent s).retryLastIterationCounter, e, by simp [he]⟩
          | succ j => simp at hreq
      | next s' =>
        rw [loop_next unmarshal chunks res₀ rest s s' inputData hb ha]
        have hih := ih s' (retryConsistent_next hs ha)
        simp only
        rw [hih]
        constructor
        · rintro ⟨i, req, res, hreq, hflag, hres, hu⟩
          exact ⟨i + 1, req, res, by simpa using hreq, hflag, by simpa using hres, hu⟩
        · rintro ⟨i, req, res, hreq, hflag, hres, hu⟩
          cases i with
          | zero =>
            simp at hreq hres
            subst hreq hres
            exfalso
            rcases afterCall_next ha with ⟨_, hc, _⟩ | ⟨o, _, hu', _⟩
            · rcases hs with ⟨_, h1⟩ | ⟨h0, _⟩
              · simp [sent, h1] at hc
              · rw [hfl, h0] at hflag; simp at hflag
            · rw [hu] at hu'; simp at hu'
          | succ j =>
            exact ⟨j, req, res, by simpa using hreq, hflag, by simpa using hres, hu⟩

/-- C8: a parse failure is retried once per iteration and then is fatal. In any
run, (1) when the reply to a request sent without the retry flag is unparsable,
the next request is that same request with the flag set, however many retries
came before; (2) the run returns the unmarshal error exactly when the reply to
a request sent with the retry flag is unparsable; (3) equivalently, exactly when
two consecutive consumed replies are unparsable. -/
theorem parse_failure_retried_once_per_iteration
    (unmarshal : String → Except String output) (chunks : List String)
    (script : List CallResult) :
    (∀ (i : Nat) (req : input) (res : CallResult),
      (convertChunksToMarkdown unmarshal chunks script).requests[i]? = some req →
      req.RetryLastIteration = false → script[i]? = some res →
      unparsable unmarshal res = true →
      (convertChunksToMarkdown unmarshal chunks script).requests[i + 1]? =
        some { req with RetryLastIteration := true }) ∧
    ((∃ n err, (convertChunksToMarkdown unmarshal chunks script).outcome =
        .returned none (some (.unmarshalOutput n err))) ↔
      ∃ (i : Nat) (req : input) (res : CallResult),
        (convertChunksToMarkdown unmarshal chunks script).requests[i]? = some req ∧
        req.RetryLastIteration = true ∧ script[i]? = some res ∧
        unparsable unmarshal res = true) ∧
    ((∃ n err, (convertChunksToMarkdown unmarshal chunks script).outcome =
        .returned none (some (.unmarshalOutput n err))) ↔
      ∃ (i : Nat) (res₁ res₂ : CallResult),
        i + 2 ≤ (convertChunksToMarkdown unmarshal chunks script).requests.length ∧
        script[i]? = some res₁ ∧ script[i + 1]? = some res₂ ∧
        unparsable unmarshal res₁ = true ∧ unparsable unmarshal res₂ = true) := by
  have hinit : RetryConsistent initialState := Or.inr ⟨rfl, rfl⟩
  have h2 := loop_parse_error_iff unmarshal chunks script initialState hinit
  refine ⟨?_, ?_, ?_⟩
  · exact loop_first_failure_retried unmarshal chunks script initialState hinit
  · exact h2
  · unfold convertChunksToMarkdown
    rw [h2]
    constructor
    · rintro ⟨i, req, res, hreq, hflag, hres, hu⟩
      cases i with
      | zero =>
        rw [loop_requests_head] at hreq
        have hfl := (buildInput_some hreq).2.1
        rw [hflag] at hfl
        simp [initialState] at hfl
      | succ j =>
        obtain ⟨res₁, hres₁, hfl⟩ := loop_retry_flag unmarshal chunks script initialState j req hreq
        have hlen : j + 1 < (loop unmarshal chunks script initialState).requests.length := by
          rcases List.getElem?_eq_some.mp hreq with ⟨hlt, _⟩
          exact hlt
        refine ⟨j, res₁, res, by omega, hres₁, hres, ?_, hu⟩
        rw [← hfl, hflag]
    · rintro ⟨i, res₁, res₂, hlen, hres₁, hres₂, hu₁, hu₂⟩
      have hlt : i + 1 < (loop unmarshal chunks script initialState).requests.length := by omega
      have hreq : (loop unmarshal chunks script initialState).requests[i + 1]? =
          some ((loop unmarshal chunks script initialState).requests[i + 1]) :=
        List.getElem?_eq_getElem hlt
      obtain ⟨r, hr, hfl⟩ := loop_retry_flag unmarshal chunks script initialState i _ hreq
      rw [hres₁] at hr
      simp at hr
      subst hr
      exact ⟨i + 1, _, res₂, hreq, by rw [hfl, hu₁], hres₂, hu₂⟩

/-- C8 at a concrete run: five chunks; iteration 0 already used a retry, and the
unparsable reply to the fresh request of iteration 1 is again answered by a
retried request for the same window. -/
theorem parse_failure_retried_once_per_iteration_witness :
    (convertChunksToMarkdown sampleUnmarshal ["a", "b", "c", "d", "e"]
        [call replyNotJSON, call replyGrow, call replyNotJSON, call replyFinished]).requests[2]? =
      some ⟨1, false, 4, 0, 3, ["a", "b", "c", "d"]⟩ ∧
    [call replyNotJSON, call replyGrow, call replyNotJSON, call replyFinished][2]? =
      some (call replyNotJSON) ∧
    unparsable sampleUnmarshal (call replyNotJSON) = true ∧
    (convertChunksToMarkdown sampleUnmarshal ["a", "b", "c", "d", "e"]
        [call replyNotJSON, call replyGrow, call replyNotJSON, call replyFinished]).requests[3]? =
      some ⟨1, true, 4, 0, 3, ["a", "b", "c", "d"]⟩ :=
  ⟨by decide, rfl, by decide,
   (parse_failure_retried_once_per_iteration sampleUnmarshal ["a", "b", "c", "d", "e"]
      [call replyNotJSON, call replyGrow, call replyNotJSON, call replyFinished]).1 2
      ⟨1, false, 4, 0, 3, ["a", "b", "c", "d"]⟩ (call replyNotJSON) (by decide) rfl rfl
      (by decide)⟩

/-- C10: the retry flag is a one-shot signal. The first request carries
`retry_last_iteration = false`; every later request carries `true` exactly when
the reply consumed just before it was unparsable, and `false` after a reply that
parsed. -/
theorem retry_flag_follows_unparsable_reply
    (unmarshal : String → Except String output) (chunks : List String)
    (script : List CallResult) :
    (∀ req : input, (convertChunksToMarkdown unmarshal chunks script).requests[0]? = some req →
      req.RetryLastIteration = false) ∧
    (∀ (i : Nat) (req : input),
      (convertChunksToMarkdown unmarshal chunks script).requests[i + 1]? = some req →
      ∃ res, script[i]? = some res ∧
        (req.RetryLastIteration = true ↔ unparsable unmarshal res = true) ∧
        (∀ o, parsed unmarshal res = some o → req.RetryLastIteration = false)) := by
  unfold convertChunksToMarkdown
  constructor
  · intro req hreq
    rw [loop_requests_head] at hreq
    rw [(buildInput_some hreq).2.1]
    rfl
  · intro i req hreq
    obtain ⟨res, hres, hfl⟩ := loop_retry_flag unmarshal chunks script initialState i req hreq
    refine ⟨res, hres, by rw [hfl], ?_⟩
    intro o ho
    rw [hfl]
    cases hu : unparsable unmarshal res with
    | false => rfl
    | true =>
      rw [parsed_none_of_unparsable hu] at ho
      simp at ho

/-- C10 at Scenario B: three chunks, first reply not JSON, second reply
finished: two requests for the same window with flags false, true, and the run
returns the empty list. -/
theorem retry_flag_follows_unparsable_reply_witness :
    convertChunksToMarkdown sampleUnmarshal ["a", "b", "c"]
        [call replyNotJSON, call replyFinished] =
      ⟨[⟨0, false, 2, 0, 2, ["a", "b", "c"]⟩, ⟨0, true, 2, 0, 2, ["a", "b", "c"]⟩],
       .returned (some []) none⟩ ∧
    ∃ res, [call replyNotJSON, call replyFinished][0]? = some res ∧
      ((⟨0, true, 2, 0, 2, ["a", "b", "c"]⟩ : input).RetryLastIteration = true ↔
        unparsable sampleUnmarshal res = true) ∧
      (∀ o, parsed sampleUnmarshal res = some o →
        (⟨0, true, 2, 0, 2, ["a", "b", "c"]⟩ : input).RetryLastIteration = false) :=
  ⟨by decide,
   (retry_flag_follows_unparsable_reply sampleUnmarshal ["a", "b", "c"]
      [call replyNotJSON, call replyFinished]).2 0 ⟨0, true, 2, 0, 2, ["a", "b", "c"]⟩
      (by decide)⟩

/-- When the loop body leaves the function it has returned a list and no error,
or an error and no list, or panicked; it never leaves while waiting. -/
theorem afterCall_stop {unmarshal : String → Except String output} {inputData : input}
    {s : LoopState} {res : CallResult} {o : Outcome}
    (h : afterCall unmarshal inputData s res = .stop o) :
    o = .panicked ∨ (∃ md, o = .returned (some md) none) ∨
      (∃ e, o = .returned none (some e)) := by
  rcases parsed_or_unparsable_or_rejected unmarshal res with ⟨p, hp, _⟩ | ⟨hu, _⟩ | ⟨hr, _, _⟩
  · rw [afterCall_of_parsed unmarshal inputData s res p hp] at h
    split at h
    · simp at h
      exact Or.inr (Or.inl ⟨_, h.symm⟩)
    · split at h
      · simp at h
        exact Or.inr (Or.inr ⟨_, h.symm⟩)
      · split at h
        · simp at h
          exact Or.inr (Or.inr ⟨_, h.symm⟩)
        · simp at h
  · obtain ⟨err, he⟩ := afterCall_of_unparsable unmarshal inputData s res hu
    rw [he] at h
    split at h
    · simp at h
      exact Or.inr (Or.inr ⟨_, h.symm⟩)
    · simp at h
  · rcases afterCall_of_rejected unmarshal inputData s res hr with h1 | ⟨e, h1, _⟩
    · rw [h1] at h
      simp at h
      exact Or.inl h.symm
    · rw [h1] at h
      simp at h
      exact Or.inr (Or.inr ⟨e, h.symm⟩)

/-- A parsed finishing reply at position `p` of the script bounds the run: the
loop is not left waiting and sends at most `p + 1` requests. -/
theorem loop_stops_at_finished (unmarshal : String → Except String output)
    (chunks : List String) :
    ∀ (script : List CallResult) (s : LoopState) (p : Nat) (res : CallResult) (o : output),
      script[p]? = some res → parsed unmarshal res = some o → o.Finished = true →
      (loop unmarshal chunks script s).outcome ≠ .awaitingReply ∧
      (loop unmarshal chunks script s).requests.length ≤ p + 1 := by
  intro script
  induction script with
  | nil => intro s p res o hres; simp at hres
  | cons res₀ rest ih =>
    intro s p res o hres hp hf
    cases hb : buildInput chunks s with
    | none => simp [loop_panic unmarshal chunks _ s hb]
    | some inputData =>
      cases ha : afterCall unmarshal inputData (sent s) res₀ with
      | stop out =>
        rw [loop_stop unmarshal chunks res₀ rest s inputData out hb ha]
        refine ⟨?_, by simp⟩
        rcases afterCall_stop ha with h | ⟨md, h⟩ | ⟨e, h⟩ <;> simp [h]
      | next s' =>
        rw [loop_next unmarshal chunks res₀ rest s s' inputData hb ha]
        cases p with
        | zero =>
          simp at hres
          subst hres
          rw [afterCall_of_parsed unmarshal inputData (sent s) res₀ o hp] at ha
          simp [hf] at ha
        | succ q =>
          simp only [List.getElem?_cons_succ] at hres
          have := ih s' q res o hres hp hf
          simp only [List.length_cons]
          exact ⟨this.1, by omega⟩

/-- Whatever the loop returns is a list with no error or an error with no list. -/
theorem loop_returned_shape (unmarshal : String → Except String output)
    (chunks : List String) :
    ∀ (script : List CallResult) (s : LoopState) (l : Option (List String))
      (e : Option ConvertError),
      (loop unmarshal chunks script s).outcome = .returned l e →
      (∃ md, l = some md ∧ e = none) ∨ (∃ err, l = none ∧ e = some err) := by
  intro script
  induction script with
  | nil =>
    intro s l e h
    rw [loop_nil] at h
    cases hb : buildInput chunks s <;> simp [hb] at h
  | cons res₀ rest ih =>
    intro s l e h
    cases hb : buildInput chunks s with
    | none => simp [loop_panic unmarshal chunks _ s hb] at h
    | some inputData =>
      cases ha : afterCall unmarshal inputData (sent s) res₀ with
      | stop out =>
        rw [loop_stop unmarshal chunks res₀ rest s inputData out hb ha] at h
        simp only at h
        subst h
        rcases afterCall_stop ha with h | ⟨md, h⟩ | ⟨err, h⟩
        · simp at h
        · simp at h
          exact Or.inl ⟨md, h.1, h.2⟩
        · simp at h
          exact Or.inr ⟨err, h.1, h.2⟩
      | next s' =>
        rw [loop_next unmarshal chunks res₀ rest s s' inputData hb ha] at h
        exact ih s' l e h

/-- C12: when the script holds a parsed reply with `finished = true` at position
`p` (counting from 0), the run ends (it is not left waiting for a further
result) and makes at most `p + 1` oracle calls, so no call follows that reply. -/
theorem terminates_at_finishing_reply
    (unmarshal : String → Except String output) (chunks : List String)
    (script : List CallResult) (p : Nat) (res : CallResult) (o : output)
    (hres : script[p]? = some res) (hp : parsed unmarshal res = some o)
    (hf : o.Finished = true) :
    (convertChunksToMarkdown unmarshal chunks script).outcome ≠ .awaitingReply ∧
    (convertChunksToMarkdown unmarshal chunks script).requests.length ≤ p + 1 ∧
    (convertChunksToMarkdown unmarshal chunks script).requests.length ≤ script.length := by
  have h := loop_stops_at_finished unmarshal chunks script initialState p res o hres hp hf
  have hlt : p < script.length := by
    rcases List.getElem?_eq_some.mp hres with ⟨hlt, _⟩
    exact hlt
  exact ⟨h.1, h.2, le_trans h.2 hlt⟩

/-- C12 at a concrete run: five chunks, the finishing reply is third of four
results; three calls are made and the fourth result is never asked for. -/
theorem terminates_at_finishing_reply_witness :
    [call replyGrow, call replyStoreA, call replyFinished, call replyGrow][2]? =
      some (call replyFinished) ∧
    parsed sampleUnmarshal (call replyFinished) = some ⟨true, false, "", -1, -1⟩ ∧
    (convertChunksToMarkdown sampleUnmarshal ["a", "b", "c", "d", "e"]
      [call replyGrow, call replyStoreA, call replyFinished, call replyGrow]).requests.length
      ≤ 2 + 1 :=
  ⟨rfl, by decide,
   (terminates_at_finishing_reply sampleUnmarshal ["a", "b", "c", "d", "e"]
      [call replyGrow, call replyStoreA, call replyFinished, call replyGrow] 2
      (call replyFinished) ⟨true, false, "", -1, -1⟩ rfl (by decide) rfl).2.1⟩

/-- C13: whatever a run returns is either a list together with a nil error, or
an error together with a nil list; in particular every returned error comes
with no list, however much had been accumulated. -/
theorem no_partial_success
    (unmarshal : String → Except String output) (chunks : List String)
    (script : List CallResult) (l : Option (List String)) (e : Option ConvertError)
    (h : (convertChunksToMarkdown unmarshal chunks script).outcome = .returned l e) :
    ((∃ md, l = some md ∧ e = none) ∨ (∃ err, l = none ∧ e = some err)) ∧
    (e ≠ none → l = none) ∧ (l ≠ none → e = none) := by
  have hs := loop_returned_shape unmarshal chunks script initialState l e h
  refine ⟨hs, ?_, ?_⟩
  · intro he
    rcases hs with ⟨md, _, h2⟩ | ⟨err, h1, _⟩
    · exact absurd h2 he
    · exact h1
  · intro hl
    rcases hs with ⟨md, _, h2⟩ | ⟨err, h1, _⟩
    · exact h2
    · exact absurd h1 hl

/-- C13 at a concrete run: five chunks, "## A" is stored, then the oracle call
fails: the run returns the error and a nil list. -/
theorem no_partial_success_witness :
    (convertChunksToMarkdown sampleUnmarshal ["a", "b", "c", "d", "e"]
        [call replyStoreA, .error "timeout"]).outcome =
      .returned none (some (.chatCompletionFailed "timeout")) ∧
    ((some (ConvertError.chatCompletionFailed "timeout")) ≠ none →
      (none : Option (List String)) = none) :=
  ⟨by decide,
   (no_partial_success sampleUnmarshal ["a", "b", "c", "d", "e"]
      [call replyStoreA, .error "timeout"] none
      (some (.chatCompletionFailed "timeout")) (by decide)).2.1⟩

/-- C14: entered in any state whose request can be built, a failed oracle call
ends the run with the "chat completion failed" error, and a response whose
number of choices is not 1 ends it with the "res.Choices" error; in both cases
that one request is the only one sent, whatever the retry counter and whatever
results would have followed. -/
theorem transport_and_count_failures_are_fatal
    (unmarshal : String → Except String output) (chunks : List String) (s : LoopState)
    (inputData : input) (script : List CallResult)
    (hb : buildInput chunks s = some inputData) :
    (∀ err : String, loop unmarshal chunks (.error err :: script) s =
      ⟨[inputData], .returned none (some (.chatCompletionFailed err))⟩) ∧
    (∀ choices : List ChatCompletionChoice, choices.length ≠ 1 →
      loop unmarshal chunks (.ok ⟨choices⟩ :: script) s =
        ⟨[inputData], .returned none (some (.choicesLength choices.length))⟩) := by
  constructor
  · intro err
    exact loop_stop unmarshal chunks _ script s inputData _ hb (by simp [afterCall])
  · intro choices hlen
    apply loop_stop unmarshal chunks _ script s inputData _ hb
    match choices, hlen with
    | [], _ => simp [afterCall]
    | [c], h => simp at h
    | c₁ :: c₂ :: cs, _ => simp [afterCall]

/-- C14 at a concrete state: three chunks, retry counter 0, a response with no
choice at all, followed by a result that is never asked for. -/
theorem transport_and_count_failures_are_fatal_witness :
    buildInput ["a", "b", "c"] initialState = some ⟨0, false, 2, 0, 2, ["a", "b", "c"]⟩ ∧
    loop sampleUnmarshal ["a", "b", "c"] [.ok ⟨[]⟩, call replyFinished] initialState =
      ⟨[⟨0, false, 2, 0, 2, ["a", "b", "c"]⟩], .returned none (some (.choicesLength 0))⟩ :=
  ⟨by decide,
   (transport_and_count_failures_are_fatal sampleUnmarshal ["a", "b", "c"] initialState
      ⟨0, false, 2, 0, 2, ["a", "b", "c"]⟩ [call replyFinished] (by decide)).2 []
      (by decide)⟩

/-- C18: a function call whose name is not "output" ends the run with the
"functionCall name" error whatever its arguments are and whatever the decoder
would make of them; the body stops before the arguments are parsed, so no retry
is requested and no state is carried into a further iteration. -/
theorem wrong_function_name_is_fatal
    (unmarshal : String → Except String output) (chunks : List String) (s : LoopState)
    (inputData : input) (script : List CallResult) (name arguments : String)
    (hb : buildInput chunks s = some inputData) (hn : name ≠ "output") :
    afterCall unmarshal inputData (sent s) (.ok ⟨[⟨⟨some ⟨name, arguments⟩⟩⟩]⟩) =
      .stop (.returned none (some (.functionCallName name))) ∧
    loop unmarshal chunks (.ok ⟨[⟨⟨some ⟨name, arguments⟩⟩⟩]⟩ :: script) s =
      ⟨[inputData], .returned none (some (.functionCallName name))⟩ := by
  have ha : afterCall unmarshal inputData (sent s) (.ok ⟨[⟨⟨some ⟨name, arguments⟩⟩⟩]⟩) =
      .stop (.returned none (some (.functionCallName name))) := by
    simp [afterCall, hn]
  exact ⟨ha, loop_stop unmarshal chunks _ script s inputData _ hb ha⟩

/-- C18 at a concrete state: three chunks, retry counter 0, a call named
"other" whose arguments are a well-formed finishing reply. -/
theorem wrong_function_name_is_fatal_witness :
    buildInput ["a", "b", "c"] initialState = some ⟨0, false, 2, 0, 2, ["a", "b", "c"]⟩ ∧
    "other" ≠ "output" ∧
    sampleUnmarshal replyFinished = .ok ⟨true, false, "", -1, -1⟩ ∧
    loop sampleUnmarshal ["a", "b", "c"]
        (.ok ⟨[⟨⟨some ⟨"other", replyFinished⟩⟩⟩]⟩ :: [call replyFinished]) initialState =
      ⟨[⟨0, false, 2, 0, 2, ["a", "b", "c"]⟩],
       .returned none (some (.functionCallName "other"))⟩ :=
  ⟨by decide, by decide, rfl,
   (wrong_function_name_is_fatal sampleUnmarshal ["a", "b", "c"] initialState
      ⟨0, false, 2, 0, 2, ["a", "b", "c"]⟩ [call replyFinished] "other" replyFinished
      (by decide) (by decide)).2⟩

theorem accepted_of_unparsable {unmarshal : String → Except String output} {maxIndex : Int}
    {res : CallResult} (h : unparsable unmarshal res = true) :
    accepted unmarshal maxIndex res = false := by
  simp [accepted, parsed_none_of_unparsable h]

/-- The iteration field of a request is the counter the loop was entered with
plus the number of accepted replies consumed before the request. -/
theorem loop_requests_iteration (unmarshal : String → Except String output)
    (chunks : List String) :
    ∀ (script : List CallResult) (s : LoopState) (i : Nat) (req : input),
      (loop unmarshal chunks script s).requests[i]? = some req →
      req.Iteration = s.iterationCounter +
        ((script.take i).countP (accepted unmarshal ((chunks.length : Int) - 1)) : Nat) := by
  intro script
  induction script with
  | nil =>
    intro s i req h
    cases i with
    | zero =>
      rw [loop_requests_head] at h
      simp [(buildInput_some h).1]
    | succ j =>
      rw [loop_nil] at h
      cases hb : buildInput chunks s <;> simp [hb] at h
  | cons res rest ih =>
    intro s i req h
    cases i with
    | zero =>
      rw [loop_requests_head] at h
      simp [(buildInput_some h).1]
    | succ j =>
      cases hb : buildInput chunks s with
      | none => simp [loop_panic unmarshal chunks _ s hb] at h
      | some inputData =>
        have hmax : inputData.MaxIndex = (chunks.length : Int) - 1 := (buildInput_some hb).2.2.1
        cases ha : afterCall unmarshal inputData (sent s) res with
        | stop o => simp [loop_stop unmarshal chunks res rest s inputData o hb ha] at h
        | next s' =>
          rw [loop_next unmarshal chunks res rest s s' inputData hb ha] at h
          simp only [List.getElem?_cons_succ] at h
          rw [ih s' j req h, List.take_succ_cons, List.countP_cons]
          rcases afterCall_next ha with ⟨hu, _, hs'⟩ | ⟨o, hp, _, hf, hle1, hle2, hs'⟩
          · subst hs'
            simp [accepted_of_unparsable hu, retried, sent]
          · subst hs'
            rw [hmax] at hle1
            have hacc : accepted unmarshal ((chunks.length : Int) - 1) res = true := by
              simp [accepted, hp, hf, hle1, hle2]
            simp [hacc, advanced, sent]
            omega

/-- Two consecutive requests of the loop and the reply between them: after a
parsed reply the window is the one the reply asked for and the iteration field
is one more; after an unparsable reply window and iteration are the same. -/
theorem loop_consecutive_requests (unmarshal : String → Except String output)
    (chunks : List String) :
    ∀ (script : List CallResult) (s : LoopState) (i : Nat) (req req' : input)
      (res : CallResult),
      (loop unmarshal chunks script s).requests[i]? = some req →
      (loop unmarshal chunks script s).requests[i + 1]? = some req' →
      script[i]? = some res →
      (∀ o, parsed unmarshal res = some o →
        req'.StartIndex = o.NextStartIndex ∧ req'.EndIndex = o.NextEndIndex ∧
        req'.Iteration = req.Iteration + 1 ∧
        accepted unmarshal ((chunks.length : Int) - 1) res = true) ∧
      (unparsable unmarshal res = true →
        req'.StartIndex = req.StartIndex ∧ req'.EndIndex = req.EndIndex ∧
        req'.Iteration = req.Iteration) := by
  intro script
  induction script with
  | nil => intro s i req req' res _ _ hres; simp at hres
  | cons res₀ rest ih =>
    intro s i req req' res hreq hreq' hres
    cases hb : buildInput chunks s with
    | none => simp [loop_panic unmarshal chunks _ s hb] at hreq
    | some inputData =>
      have hmax : inputData.MaxIndex = (chunks.length : Int) - 1 := (buildInput_some hb).2.2.1
      cases ha : afterCall unmarshal inputData (sent s) res₀ with
      | stop o => simp [loop_stop unmarshal chunks res₀ rest s inputData o hb ha] at hreq'
      | next s' =>
        rw [loop_next unmarshal chunks res₀ rest s s' inputData hb ha] at hreq hreq'
        simp only [List.getElem?_cons_succ] at hreq'
        cases i with
        | zero =>
          simp at hreq hres
          subst hreq hres
          rw [loop_requests_head] at hreq'
          obtain ⟨hit, _, _, hst, hen, _⟩ := buildInput_some hb
          obtain ⟨hit', _, _, hst', hen', _⟩ := buildInput_some hreq'
          rcases afterCall_next ha with ⟨hu, _, hs'⟩ | ⟨o, hp, hu, hf, hle1, hle2, hs'⟩
          · subst hs'
            constructor
            · intro o ho
              rw [parsed_none_of_unparsable hu] at ho
              simp at ho
            · intro _
              rw [hst', hen', hit', hst, hen, hit]
              simp [retried, sent]
          · subst hs'
            constructor
            · intro o' ho'
              rw [hp] at ho'
              simp at ho'
              subst ho'
              rw [hmax] at hle1
              rw [hst', hen', hit', hit]
              simp [advanced, sent, accepted, hp, hf, hle1, hle2]
            · intro hu'
              rw [hu] at hu'
              simp at hu'
        | succ j =>
          simp only [List.getElem?_cons_succ] at hreq hres
          exact ih s' j req req' res hreq hreq' hres

/-- C15: in any run, when a request follows a parsed reply, that reply was
accepted (not finishing, indices valid), the request's window is exactly the
reply's `next_start_index .. next_end_index`, and its iteration field is one
more than the previous request's; after an unparsable reply window and
iteration field are unchanged; and the iteration field of the request at
position `i` is the number of accepted replies among the `i` replies before it. -/
theorem window_and_iteration_follow_accepted_replies
    (unmarshal : String → Except String output) (chunks : List String)
    (script : List CallResult) :
    (∀ (i : Nat) (req req' : input) (res : CallResult) (o : output),
      (convertChunksToMarkdown unmarshal chunks script).requests[i]? = some req →
      (convertChunksToMarkdown unmarshal chunks script).requests[i + 1]? = some req' →
      script[i]? = some res → parsed unmarshal res = some o →
      req'.StartIndex = o.NextStartIndex ∧ req'.EndIndex = o.NextEndIndex ∧
      req'.Iteration = req.Iteration + 1 ∧
      accepted unmarshal ((chunks.length : Int) - 1) res = true) ∧
    (∀ (i : Nat) (req req' : input) (res : CallResult),
      (convertChunksToMarkdown unmarshal chunks script).requests[i]? = some req →
      (convertChunksToMarkdown unmarshal chunks script).requests[i + 1]? = some req' →
      script[i]? = some res → unparsable unmarshal res = true →
      req'.StartIndex = req.StartIndex ∧ req'.EndIndex = req.EndIndex ∧
      req'.Iteration = req.Iteration) ∧
    (∀ (i : Nat) (req : input),
      (convertChunksToMarkdown unmarshal chunks script).requests[i]? = some req →
      req.Iteration =
        ((script.take i).countP (accepted unmarshal ((chunks.length : Int) - 1)) : Nat)) := by
  unfold convertChunksToMarkdown
  refine ⟨?_, ?_, ?_⟩
  · intro i req req' res o hreq hreq' hres hp
    exact (loop_consecutive_requests unmarshal chunks script initialState i req req' res
      hreq hreq' hres).1 o hp
  · intro i req req' res hreq hreq' hres hu
    exact (loop_consecutive_requests unmarshal chunks script initialState i req req' res
      hreq hreq' hres).2 hu
  · intro i req hreq
    have := loop_requests_iteration unmarshal chunks script initialState i req hreq
    simpa [initialState] using this

/-- C15 at a concrete run: five chunks; the reply "store ## A, next 4..4" to
the second request is followed by a request for window 4..4 with iteration 2. -/
theorem window_and_iteration_follow_accepted_replies_witness :
    (convertChunksToMarkdown sampleUnmarshal ["a", "b", "c", "d", "e"]
        [call replyGrow, call replyStoreA, call replyFinished]).requests[1]? =
      some ⟨1, false, 4, 0, 3, ["a", "b", "c", "d"]⟩ ∧
    (convertChunksToMarkdown sampleUnmarshal ["a", "b", "c", "d", "e"]
        [call replyGrow, call replyStoreA, call replyFinished]).requests[2]? =
      some ⟨2, false, 4, 4, 4, ["e"]⟩ ∧
    parsed sampleUnmarshal (call replyStoreA) = some ⟨false, true, "## A", 4, 4⟩ ∧
    ((⟨2, false, 4, 4, 4, ["e"]⟩ : input).StartIndex =
        (⟨false, true, "## A", 4, 4⟩ : output).NextStartIndex ∧
      (⟨2, false, 4, 4, 4, ["e"]⟩ : input).EndIndex =
        (⟨false, true, "## A", 4, 4⟩ : output).NextEndIndex ∧
      (⟨2, false, 4, 4, 4, ["e"]⟩ : input).Iteration =
        (⟨1, false, 4, 0, 3, ["a", "b", "c", "d"]⟩ : input).Iteration + 1 ∧
      accepted sampleUnmarshal
        ((([("a" : String), "b", "c", "d", "e"].length : Nat) : Int) - 1)
        (call replyStoreA) = true) :=
  ⟨by decide, by decide, by decide,
   (window_and_iteration_follow_accepted_replies sampleUnmarshal ["a", "b", "c", "d", "e"]
      [call replyGrow, call replyStoreA, call replyFinished]).1 1
      ⟨1, false, 4, 0, 3, ["a", "b", "c", "d"]⟩ ⟨2, false, 4, 4, 4, ["e"]⟩
      (call replyStoreA) ⟨false, true, "## A", 4, 4⟩ (by decide) (by decide) rfl
      (by decide)⟩

/-- What the inner loop collects: `n` consecutive chunks from index `i` on,
appended to what it started with. -/
theorem appendChunks_eq {chunks : List String} :
    ∀ (n : Nat) (i : Int) (acc cs : List String),
      appendChunks chunks n i acc = some cs →
      cs = acc ++ (chunks.drop i.toNat).take n := by
  intro n
  induction n with
  | zero =>
    intro i acc cs h
    simp [appendChunks] at h
    simp [h]
  | succ n ih =>
    intro i acc cs h
    unfold appendChunks at h
    split at h
    · simp at h
    · rename_i c hc
      have hb := chunkAt_some hc
      have hlt : i.toNat < chunks.length := by omega
      have hget : chunks[i.toNat] = c := by
        unfold chunkAt at hc
        have hn : ¬ i < 0 := by omega
        rw [if_neg hn] at hc
        rcases List.getElem?_eq_some.mp hc with ⟨_, hv⟩
        exact hv
      have hnext : (i + 1).toNat = i.toNat + 1 := by omega
      rw [ih (i + 1) (acc ++ [c]) cs h, hnext, List.drop_eq_getElem_cons hlt, hget]
      simp

/-- Every request of the loop was built from a state with a non-empty window. -/
theorem loop_requests_built (unmarshal : String → Except String output)
    (chunks : List String) :
    ∀ (script : List CallResult) (s : LoopState), s.startIndex ≤ s.endIndex →
      ∀ req ∈ (loop unmarshal chunks script s).requests,
        ∃ s' : LoopState, s'.startIndex ≤ s'.endIndex ∧ buildInput chunks s' = some req := by
  intro script
  induction script with
  | nil =>
    intro s hle req hreq
    rw [loop_nil] at hreq
    cases hb : buildInput chunks s with
    | none => simp [hb] at hreq
    | some inputData =>
      simp [hb] at hreq
      subst hreq
      exact ⟨s, hle, hb⟩
  | cons res rest ih =>
    intro s hle req hreq
    cases hb : buildInput chunks s with
    | none => simp [loop_panic unmarshal chunks _ s hb] at hreq
    | some inputData =>
      cases ha : afterCall unmarshal inputData (sent s) res with
      | stop o =>
        rw [loop_stop unmarshal chunks res rest s inputData o hb ha] at hreq
        simp at hreq
        subst hreq
        exact ⟨s, hle, hb⟩
      | next s' =>
        rw [loop_next unmarshal chunks res rest s s' inputData hb ha] at hreq
        simp at hreq
        rcases hreq with hreq | hreq
        · subst hreq
          exact ⟨s, hle, hb⟩
        · refine ih s' ?_ req hreq
          rcases afterCall_next ha with ⟨_, _, hs'⟩ | ⟨o, _, _, _, _, hle', hs'⟩
          · subst hs'; simpa [retried, sent] using hle
          · subst hs'; simpa [advanced] using hle'

/-- C16: in every request of a run, `chunks` is the sub-list of the document's
chunks from `start_index` to `end_index` inclusive, in document order, of
length `end_index - start_index + 1`, and `max_index` is `len(chunks) - 1`. -/
theorem request_chunks_are_the_window
    (unmarshal : String → Except String output) (chunks : List String)
    (script : List CallResult) (req : input)
    (hreq : req ∈ (convertChunksToMarkdown unmarshal chunks script).requests) :
    req.Chunks =
      (chunks.drop req.StartIndex.toNat).take (req.EndIndex - req.StartIndex + 1).toNat ∧
    (req.Chunks.length : Int) = req.EndIndex - req.StartIndex + 1 ∧
    (∀ k : Nat, k < req.Chunks.length →
      req.Chunks[k]? = chunks[req.StartIndex.toNat + k]?) ∧
    req.MaxIndex = (chunks.length : Int) - 1 := by
  obtain ⟨s, hle, hb⟩ :=
    loop_requests_built unmarshal chunks script initialState (by decide) req hreq
  obtain ⟨_, _, hm, hs, he, hc⟩ := buildInput_some hb
  have hbound := inputChunks_some hc hle
  have heq : req.Chunks =
      (chunks.drop req.StartIndex.toNat).take (req.EndIndex - req.StartIndex + 1).toNat := by
    have := appendChunks_eq _ _ _ _ hc
    simpa [hs, he] using this
  have hlen : (req.Chunks.length : Int) = req.EndIndex - req.StartIndex + 1 := by
    rw [heq, List.length_take, List.length_drop, hs, he]
    omega
  refine ⟨heq, hlen, ?_, hm⟩
  intro k hk
  have hk' : k < (req.EndIndex - req.StartIndex + 1).toNat := by omega
  conv_lhs => rw [heq]
  rw [List.getElem?_take, if_pos hk', List.getElem?_drop]

/-- C16 at a concrete run: five chunks, the second request has window 0..3 and
carries the first four chunks. -/
theorem request_chunks_are_the_window_witness :
    (⟨1, false, 4, 0, 3, ["a", "b", "c", "d"]⟩ : input) ∈
        (convertChunksToMarkdown sampleUnmarshal ["a", "b", "c", "d", "e"]
          [call replyGrow, call replyStoreA, call replyFinished]).requests ∧
    ["a", "b", "c", "d"] =
      (List.drop (0 : Int).toNat ["a", "b", "c", "d", "e"]).take ((3 : Int) - 0 + 1).toNat :=
  ⟨by decide,
   (request_chunks_are_the_window sampleUnmarshal ["a", "b", "c", "d", "e"]
     [call replyGrow, call replyStoreA, call replyFinished]
     ⟨1, false, 4, 0, 3, ["a", "b", "c", "d"]⟩ (by decide)).1⟩

theorem loopStates_nil (unmarshal : String → Except String output) (chunks : List String)
    (s : LoopState) : loopStates unmarshal chunks [] s = [s] := by
  rw [loopStates]

theorem loopStates_panic (unmarshal : String → Except String output) (chunks : List String)
    (res : CallResult) (script : List CallResult) (s : LoopState)
    (h : buildInput chunks s = none) :
    loopStates unmarshal chunks (res :: script) s = [s] := by
  simp [loopStates, h]

theorem loopStates_stop (unmarshal : String → Except String output) (chunks : List String)
    (res : CallResult) (script : List CallResult) (s : LoopState) (inputData : input)
    (o : Outcome) (hb : buildInput chunks s = some inputData)
    (ha : afterCall unmarshal inputData (sent s) res = .stop o) :
    loopStates unmarshal chunks (res :: script) s = [s] := by
  unfold sent at ha
  simp [loopStates, hb, ha]

theorem loopStates_next (unmarshal : String → Except String output) (chunks : List String)
    (res : CallResult) (script : List CallResult) (s s' : LoopState) (inputData : input)
    (hb : buildInput chunks s = some inputData)
    (ha : afterCall unmarshal inputData (sent s) res = .next s') :
    loopStates unmarshal chunks (res :: script) s =
      s :: loopStates unmarshal chunks script s' := by
  unfold sent at ha
  simp [loopStates, hb, ha]

/-- The requests of a run are the requests built in the states the loop body
was entered in. -/
theorem loop_requests_eq_filterMap (unmarshal : String → Except String output)
    (chunks : List String) :
    ∀ (script : List CallResult) (s : LoopState),
      (loop unmarshal chunks script s).requests =
        (loopStates unmarshal chunks script s).filterMap (buildInput chunks) := by
  intro script
  induction script with
  | nil =>
    intro s
    rw [loop_nil, loopStates_nil]
    cases hb : buildInput chunks s <;> simp [hb]
  | cons res rest ih =>
    intro s
    cases hb : buildInput chunks s with
    | none =>
      rw [loop_panic unmarshal chunks _ s hb, loopStates_panic unmarshal chunks res rest s hb]
      simp [hb]
    | some inputData =>
      cases ha : afterCall unmarshal inputData (sent s) res with
      | stop o =>
        rw [loop_stop unmarshal chunks res rest s inputData o hb ha,
          loopStates_stop unmarshal chunks res rest s inputData o hb ha]
        simp [hb]
      | next s' =>
        rw [loop_next unmarshal chunks res rest s s' inputData hb ha,
          loopStates_next unmarshal chunks res rest s s' inputData hb ha]
        simp [hb, ih s']

theorem appendChunks_isSome {chunks : List String} :
    ∀ (n : Nat) (i : Int) (acc : List String), 0 ≤ i → i + n ≤ chunks.length →
      ∃ cs, appendChunks chunks n i acc = some cs := by
  intro n
  induction n with
  | zero => intro i acc _ _; exact ⟨acc, by simp [appendChunks]⟩
  | succ n ih =>
    intro i acc h0 hle
    have hlt : i.toNat < chunks.length := by omega
    have hc : chunkAt chunks i = some chunks[i.toNat] := by
      unfold chunkAt
      have hn : ¬ i < 0 := by omega
      rw [if_neg hn]
      exact List.getElem?_eq_getElem hlt
    obtain ⟨cs, hcs⟩ := ih (i + 1) (acc ++ [chunks[i.toNat]]) (by omega) (by push_cast at hle; omega)
    exact ⟨cs, by rw [appendChunks, hc]; exact hcs⟩

/-- A window that lies inside the chunk list can be built into a request. -/
theorem buildInput_isSome {chunks : List String} {s : LoopState}
    (h0 : 0 ≤ s.startIndex) (hle : s.startIndex ≤ s.endIndex)
    (hmax : s.endIndex ≤ (chunks.length : Int) - 1) :
    ∃ inputData, buildInput chunks s = some inputData := by
  have hn : s.startIndex + ((s.endIndex - s.startIndex + 1).toNat : Int) ≤ chunks.length := by
    omega
  obtain ⟨cs, hcs⟩ := appendChunks_isSome (s.endIndex - s.startIndex + 1).toNat s.startIndex []
    h0 hn
  simp [buildInput, inputChunks, hcs]

/-- When the first window lies inside the chunk list and no accepted reply that
is consumed asks for a negative start, every state the loop body is entered in
has its window inside the chunk list. -/
theorem loopStates_window (unmarshal : String → Except String output)
    (chunks : List String) :
    ∀ (script : List CallResult) (s : LoopState),
      (0 ≤ s.startIndex ∧ s.startIndex ≤ s.endIndex ∧
        s.endIndex ≤ (chunks.length : Int) - 1) →
      (∀ (i : Nat) (res : CallResult) (o : output),
        i < (loop unmarshal chunks script s).requests.length → script[i]? = some res →
        parsed unmarshal res = some o →
        accepted unmarshal ((chunks.length : Int) - 1) res = true → 0 ≤ o.NextStartIndex) →
      ∀ st ∈ loopStates unmarshal chunks script s,
        0 ≤ st.startIndex ∧ st.startIndex ≤ st.endIndex ∧
          st.endIndex ≤ (chunks.length : Int) - 1 := by
  intro script
  induction script with
  | nil =>
    intro s hw _ st hst
    rw [loopStates_nil] at hst
    simp at hst
    subst hst
    exact hw
  | cons res rest ih =>
    intro s hw hns st hst
    cases hb : buildInput chunks s with
    | none =>
      rw [loopStates_panic unmarshal chunks res rest s hb] at hst
      simp at hst
      subst hst
      exact hw
    | some inputData =>
      have hmax : inputData.MaxIndex = (chunks.length : Int) - 1 := (buildInput_some hb).2.2.1
      cases ha : afterCall unmarshal inputData (sent s) res with
      | stop o =>
        rw [loopStates_stop unmarshal chunks res rest s inputData o hb ha] at hst
        simp at hst
        subst hst
        exact hw
      | next s' =>
        rw [loopStates_next unmarshal chunks res rest s s' inputData hb ha] at hst
        rw [loop_next unmarshal chunks res rest s s' inputData hb ha] at hns
        simp at hst
        rcases hst with hst | hst
        · subst hst
          exact hw
        · refine ih s' ?_ ?_ st hst
          · rcases afterCall_next ha with ⟨_, _, hs'⟩ | ⟨o, hp, _, hf, hle1, hle2, hs'⟩
            · subst hs'
              simpa [retried, sent] using hw
            · subst hs'
              rw [hmax] at hle1
              have hacc : accepted unmarshal ((chunks.length : Int) - 1) res = true := by
                simp [accepted, hp, hf, hle1, hle2]
              have h0 := hns 0 res o (by simp) (by simp) hp hacc
              simp [advanced]
              exact ⟨h0, hle2, hle1⟩
          · intro i r o hi hr hp hacc
            exact hns (i + 1) r o (by simpa using hi) (by simpa using hr) hp hacc

/-- C17: with at least 3 chunks, and every accepted reply that is consumed
having `next_start_index ≥ 0`, every state the loop body is entered in has its
window inside the chunk list: each index `i` read as `chunks[i]` at line 112
satisfies `0 ≤ i < len(chunks)` and the read succeeds, so the request is built
in every one of those states. -/
theorem request_building_never_faults
    (unmarshal : String → Except String output) (chunks : List String)
    (script : List CallResult) (hlen : 3 ≤ chunks.length)
    (hns : ∀ (i : Nat) (res : CallResult) (o : output),
      i < (convertChunksToMarkdown unmarshal chunks script).requests.length →
      script[i]? = some res → parsed unmarshal res = some o →
      accepted unmarshal ((chunks.length : Int) - 1) res = true → 0 ≤ o.NextStartIndex) :
    (∀ st ∈ loopStates unmarshal chunks script initialState,
      (∀ i : Int, st.startIndex ≤ i → i ≤ st.endIndex →
        0 ≤ i ∧ i < chunks.length ∧ (chunkAt chunks i).isSome = true) ∧
      (buildInput chunks st).isSome = true) ∧
    (convertChunksToMarkdown unmarshal chunks script).requests.length =
      (loopStates unmarshal chunks script initialState).length := by
  have hinit : 0 ≤ initialState.startIndex ∧ initialState.startIndex ≤ initialState.endIndex ∧
      initialState.endIndex ≤ (chunks.length : Int) - 1 := by
    simp [initialState]
    omega
  have hw := loopStates_window unmarshal chunks script initialState hinit hns
  have hall : ∀ st ∈ loopStates unmarshal chunks script initialState,
      (buildInput chunks st).isSome = true := by
    intro st hst
    obtain ⟨h0, hle, hmax⟩ := hw st hst
    obtain ⟨inputData, hb⟩ := buildInput_isSome h0 hle hmax
    simp [hb]
  refine ⟨?_, ?_⟩
  · intro st hst
    obtain ⟨h0, hle, hmax⟩ := hw st hst
    refine ⟨?_, hall st hst⟩
    intro i hi1 hi2
    have hlt : i.toNat < chunks.length := by omega
    refine ⟨by omega, by omega, ?_⟩
    unfold chunkAt
    have hn : ¬ i < 0 := by omega
    rw [if_neg hn, List.getElem?_eq_getElem hlt]
    rfl
  · unfold convertChunksToMarkdown
    rw [loop_requests_eq_filterMap]
    generalize loopStates unmarshal chunks script initialState = sts at hall
    induction sts with
    | nil => rfl
    | cons st rest ih =>
      have h1 := hall st (by simp)
      obtain ⟨inputData, hb⟩ := Option.isSome_iff_exists.mp h1
      simp only [List.filterMap_cons, hb, List.length_cons]
      rw [ih (fun st' hst' => hall st' (by simp [hst']))]

/-- C17 at a concrete run: five chunks, replies asking for windows 0..3 and
4..4, then finished; the state entered after the second reply reads only
index 4. -/
theorem request_building_never_faults_witness :
    3 ≤ ["a", "b", "c", "d", "e"].length ∧
    (⟨4, 4, 2, false, 0, ["## A"]⟩ : LoopState) ∈
      loopStates sampleUnmarshal ["a", "b", "c", "d", "e"]
        [call replyGrow, call replyStoreA, call replyFinished] initialState ∧
    (buildInput ["a", "b", "c", "d", "e"] ⟨4, 4, 2, false, 0, ["## A"]⟩).isSome = true ∧
    (convertChunksToMarkdown sampleUnmarshal ["a", "b", "c", "d", "e"]
        [call replyGrow, call replyStoreA, call replyFinished]).requests.length =
      (loopStates sampleUnmarshal ["a", "b", "c", "d", "e"]
        [call replyGrow, call replyStoreA, call replyFinished] initialState).length :=
  have h := request_building_never_faults sampleUnmarshal ["a", "b", "c", "d", "e"]
    [call replyGrow, call replyStoreA, call replyFinished] (by decide)
    (by
      intro i res o hi hres hp _
      have hi3 : i < 3 := hi
      match i, hi3 with
      | 0, _ =>
        simp at hres
        subst hres
        have : o = ⟨false, false, "", 0, 3⟩ := by
          have h0 : parsed sampleUnmarshal (call replyGrow) = some ⟨false, false, "", 0, 3⟩ := by
            decide
          rw [h0] at hp
          exact (Option.some.inj hp).symm
        subst this
        decide
      | 1, _ =>
        simp at hres
        subst hres
        have : o = ⟨false, true, "## A", 4, 4⟩ := by
          have h0 : parsed sampleUnmarshal (call replyStoreA) =
              some ⟨false, true, "## A", 4, 4⟩ := by decide
          rw [h0] at hp
          exact (Option.some.inj hp).symm
        subst this
        decide
      | 2, _ =>
        simp at hres
        subst hres
        have : o = ⟨true, false, "", -1, -1⟩ := by
          have h0 : parsed sampleUnmarshal (call replyFinished) =
              some ⟨true, false, "", -1, -1⟩ := by decide
          rw [h0] at hp
          exact (Option.some.inj hp).symm
        subst this
        rename_i hacc
        revert hacc
        decide)
  ⟨by decide, by decide, (h.1 _ (by decide)).2, h.2⟩

/-- On every payload text of the sample table the decoding model returns what
the table of decoded replies returns. -/
theorem jsonUnmarshal_sampleParse_agrees :
    jsonUnmarshal sampleParse replyGrow = sampleUnmarshal replyGrow ∧
    jsonUnmarshal sampleParse replyStoreA = sampleUnmarshal replyStoreA ∧
    jsonUnmarshal sampleParse replyFinished = sampleUnmarshal replyFinished ∧
    jsonUnmarshal sampleParse replyFinishedBeyond = sampleUnmarshal replyFinishedBeyond ∧
    jsonUnmarshal sampleParse replyNotJSON = sampleUnmarshal replyNotJSON :=
  ⟨rfl, rfl, rfl, rfl, rfl⟩

/-- An object none of whose keys selects a field decodes without error and
leaves the struct as it was: nothing is required to be present. -/
theorem decodeMembers_of_no_match (members : List (String × JsonValue)) (o : output)
    (h : ∀ m ∈ members, keyMatches m.1 "finished" = false ∧ keyMatches m.1 "store" = false ∧
      keyMatches m.1 "markdown" = false ∧ keyMatches m.1 "next_start_index" = false ∧
      keyMatches m.1 "next_end_index" = false) :
    decodeMembers members o = .ok o := by
  induction members with
  | nil => rfl
  | cons m rest ih =>
    obtain ⟨key, v⟩ := m
    obtain ⟨h1, h2, h3, h4, h5⟩ := h (key, v) (by simp)
    have hm : decodeMember o key v = .ok o := by
      simp only [] at h1 h2 h3 h4 h5
      simp [decodeMember, h1, h2, h3, h4, h5]
    rw [decodeMembers, hm]
    exact ih (fun m hm' => h m (by simp [hm']))

/-- C11, at the failing inputs: the empty object decodes without error to the
zero reply, so with three chunks it is accepted as "not finished, nothing to
store, next window 0..0": the next request has iteration 1, no retry flag and
window 0..0. An object holding only `finished` is accepted the same way and
ends the run successfully. -/
theorem empty_object_reply_is_accepted :
    jsonUnmarshal sampleParse replyEmptyObject = .ok ⟨false, false, "", 0, 0⟩ ∧
    unparsable (jsonUnmarshal sampleParse) (call replyEmptyObject) = false ∧
    convertChunksToMarkdown (jsonUnmarshal sampleParse) ["a", "b", "c"]
        [call replyEmptyObject] =
      ⟨[⟨0, false, 2, 0, 2, ["a", "b", "c"]⟩, ⟨1, false, 2, 0, 0, ["a"]⟩], .awaitingReply⟩ ∧
    jsonUnmarshal sampleParse replyOnlyFinished = .ok ⟨true, false, "", 0, 0⟩ ∧
    convertChunksToMarkdown (jsonUnmarshal sampleParse) ["a", "b", "c"]
        [call replyOnlyFinished] =
      ⟨[⟨0, false, 2, 0, 2, ["a", "b", "c"]⟩], .returned (some []) none⟩ :=
  ⟨rfl, by decide, by decide, rfl, by decide⟩

end TextChunking
